import Mathlib

/-!
Verification of the DOM + accessibility tree fusion pipeline
(`browser_use/dom/a11y/combined_tree_processor.py`) and the tree serializer
(`browser_use/dom/a11y/dom_tree_serializer.py`).

The Python code is shallowly embedded: Python dicts become association
lists with Python-dict semantics (`dictInsert` updates in place, keys stay
unique, insertion order is preserved), optional/absent protocol fields
become `Option`, the mutable statistics/counter record threaded through the
recursive fusion becomes explicit state passing, and the cyclic
parent/children links of the fused tree are represented by child ownership
alone (a parent pointer is a non-owning back-reference excluded from
serialization; in a pure tree the statement "each child's parent is this
node" is carried by the ownership structure itself).
-/

namespace BrowserUse

/-- A JSON-like value as carried in CDP `AXValue.value`.  Distinguishing
booleans from strings and numbers matters because the Python code tests
`prop['value']['value'] is True` (identity with the boolean `True`). -/
inductive JVal where
  | jbool (b : Bool)
  | jstr (s : String)
  | jnum (n : Int)
deriving DecidableEq, Repr

/-- Python `str.lower()`, modelled at the character-list level (ASCII case
mapping, which covers every name the embedded code compares against). -/
def pyLower (s : String) : String :=
  ⟨s.data.map Char.toLower⟩

/-- Python `str.strip()`: drop leading and trailing whitespace. -/
def pyStrip (s : String) : String :=
  ⟨((s.data.dropWhile Char.isWhitespace).reverse.dropWhile Char.isWhitespace).reverse⟩

/-- Python truthiness of a `JVal` (`if value:`). -/
def JVal.truthy : JVal → Bool
  | .jbool b => b
  | .jstr s => s ≠ ""
  | .jnum n => n ≠ 0

/-- Python `str(value)` for a `JVal`. -/
def JVal.toStr : JVal → String
  | .jbool b => if b then "True" else "False"
  | .jstr s => s
  | .jnum n => toString n

/-- CDP `AXValue`: `type` is required, the computed `value` is optional. -/
structure AXValueM where
  type : String
  value : Option JVal
deriving DecidableEq, Repr

/-- CDP `AXProperty`.  The Python code checks `'value' in prop` before using
it, so the value field is modelled as optional. -/
structure AXPropertyM where
  name : String
  value : Option AXValueM
deriving DecidableEq, Repr

/-- CDP `AXNode`, restricted to the fields the embedded code reads. -/
structure AXNodeM where
  nodeId : String
  ignored : Bool
  role : Option AXValueM
  name : Option AXValueM
  properties : Option (List AXPropertyM)
  backendDOMNodeId : Option Nat
deriving DecidableEq, Repr

/-- CDP DOM `Node`, restricted to the fields the embedded code reads.
`attributes`, `children` and `shadowRoots` are `Option` because the Python
code guards on key presence / `is not None` before iterating them. -/
inductive DomNode where
  | mk (nodeId : Nat) (backendNodeId : Nat) (nodeType : Nat) (nodeName : String)
      (localName : String) (nodeValue : String) (attributes : Option (List String))
      (children : Option (List DomNode)) (shadowRoots : Option (List DomNode))

def DomNode.nodeId : DomNode → Nat
  | .mk i _ _ _ _ _ _ _ _ => i

def DomNode.backendNodeId : DomNode → Nat
  | .mk _ b _ _ _ _ _ _ _ => b

def DomNode.nodeType : DomNode → Nat
  | .mk _ _ t _ _ _ _ _ _ => t

def DomNode.nodeName : DomNode → String
  | .mk _ _ _ n _ _ _ _ _ => n

def DomNode.localName : DomNode → String
  | .mk _ _ _ _ l _ _ _ _ => l

def DomNode.nodeValue : DomNode → String
  | .mk _ _ _ _ _ v _ _ _ => v

def DomNode.attributes : DomNode → Option (List String)
  | .mk _ _ _ _ _ _ a _ _ => a

def DomNode.children : DomNode → Option (List DomNode)
  | .mk _ _ _ _ _ _ _ c _ => c

def DomNode.shadowRoots : DomNode → Option (List DomNode)
  | .mk _ _ _ _ _ _ _ _ s => s

/-! ### Python dict semantics

A Python `dict` is modelled as an association list with unique keys in
insertion order: assigning to an existing key updates the value in place
(keeping the key's original position), assigning a fresh key appends. -/

/-- `m[k] = v` on a Python dict. -/
def dictInsert {κ α : Type} [BEq κ] (m : List (κ × α)) (k : κ) (v : α) : List (κ × α) :=
  if m.any (fun p => p.1 == k) then
    m.map (fun p => if p.1 == k then (k, v) else p)
  else
    m ++ [(k, v)]

/-- `m.get(k)` on a Python dict. -/
def dictLookup {κ α : Type} [BEq κ] (m : List (κ × α)) (k : κ) : Option α :=
  (m.find? (fun p => p.1 == k)).map (·.2)

/-- `k in m` on a Python dict. -/
def dictContains {κ α : Type} [BEq κ] (m : List (κ × α)) (k : κ) : Bool :=
  m.any (fun p => p.1 == k)

/-- `del m[k]` / `m.pop(k, None)` on a Python dict: drop the entry for `k`,
preserving the order of all other entries. -/
def dictErase {κ α : Type} [BEq κ] (m : List (κ × α)) (k : κ) : List (κ × α) :=
  m.filter (fun p => !(p.1 == k))

/-- The keys of a dict in insertion order. -/
def dictKeys {κ α : Type} (m : List (κ × α)) : List κ :=
  m.map (·.1)

/-! ### Tree fusion engine (`combined_tree_processor.py`) -/

/-- The fixed structural set of `_should_ignore_accessibility_for_node`. -/
def document_level_nodes : List String :=
  ["#document", "#document-fragment", "html", "head", "body", "title", "meta",
   "link", "style", "script", "noscript"]

/-- `CombinedTreeProcessor._should_ignore_accessibility_for_node`: suppress
accessibility attachment for structural / document-level nodes.  Python
lowercases `nodeName` and `localName` (an empty string stays empty). -/
def shouldIgnoreAccessibilityForNode (dom_node : DomNode) : Bool :=
  let node_name := pyLower dom_node.nodeName
  let tag_name := pyLower dom_node.localName
  document_level_nodes.contains node_name || document_level_nodes.contains tag_name

/-- `CombinedTreeProcessor._is_interactive_node`: a node is interactive iff
some property named `focusable` has a present value whose inner value is the
boolean `True` (Python tests `prop['value']['value'] is True`). -/
def isInteractiveNode (accessibility_data : Option AXNodeM) : Bool :=
  match accessibility_data with
  | none => false
  | some a =>
    match a.properties with
    | none => false
    | some props =>
      props.any (fun prop =>
        prop.name == "focusable" &&
        match prop.value with
        | some v =>
          match v.value with
          | some jv => jv == JVal.jbool true
          | none => false
        | none => false)

/-- The loop of `_parse_dom_attributes`: pair up the flat alternating
name/value sequence, later occurrences of a name overwriting earlier ones;
a trailing unpaired entry is dropped. -/
def parseAttrsLoop (attributes : List (String × String)) :
    List String → List (String × String)
  | n :: v :: rest => parseAttrsLoop (dictInsert attributes n v) rest
  | _ => attributes

/-- `CombinedTreeProcessor._parse_dom_attributes`. -/
def parseDomAttributes (dom_node : DomNode) : List (String × String) :=
  match dom_node.attributes with
  | none => []
  | some attrs => parseAttrsLoop [] attrs

/-- Python truthiness of the optional `backendDOMNodeId` field: present and
nonzero. -/
def axBackendTruthy (ax : AXNodeM) : Bool :=
  match ax.backendDOMNodeId with
  | some b => b ≠ 0
  | none => false

/-- The `ax_by_backend_id` index built at the start of
`create_combined_tree`: skip ignored nodes and nodes whose
`backendDOMNodeId` is missing or falsy (zero); a collision keeps the last
node seen (Python dict assignment). -/
def axByBackendId (nodes : List AXNodeM) : List (Nat × AXNodeM) :=
  nodes.foldl
    (fun m ax =>
      if !ax.ignored && axBackendTruthy ax then
        dictInsert m (ax.backendDOMNodeId.getD 0) ax
      else m)
    []

/-- A fused tree node (`CombinedTextNode` / `CombinedElementNode`).  Fields
that the embedded code paths never read back (`is_visible`,
`is_in_viewport`, `xpath`) are omitted; `parent` back-references are
represented by the ownership structure of `children` (see the header). -/
inductive CombinedNode where
  | text (node_id : Nat) (backend_node_id : Nat) (node_type : Nat)
      (node_name : String) (node_value : String) (text : String)
      (accessibility : Option AXNodeM) (is_new : Bool)
      (children : List CombinedNode)
  | element (node_id : Nat) (backend_node_id : Nat) (node_type : Nat)
      (node_name : String) (node_value : String) (tag_name : String)
      (attributes : List (String × String)) (accessibility : Option AXNodeM)
      (interactive_index : Option Nat) (shadow_root : Bool) (is_new : Bool)
      (children : List CombinedNode)

def CombinedNode.backend_node_id : CombinedNode → Nat
  | .text _ b _ _ _ _ _ _ _ => b
  | .element _ b _ _ _ _ _ _ _ _ _ _ => b

def CombinedNode.accessibility : CombinedNode → Option AXNodeM
  | .text _ _ _ _ _ _ a _ _ => a
  | .element _ _ _ _ _ _ _ a _ _ _ _ => a

def CombinedNode.children : CombinedNode → List CombinedNode
  | .text _ _ _ _ _ _ _ _ cs => cs
  | .element _ _ _ _ _ _ _ _ _ _ _ cs => cs

/-- `isinstance(node, CombinedTextNode)`. -/
def CombinedNode.isText : CombinedNode → Bool
  | .text _ _ _ _ _ _ _ _ _ => true
  | .element _ _ _ _ _ _ _ _ _ _ _ _ => false

/-- `interactive_index` of an element node (text nodes carry none). -/
def CombinedNode.interactiveIndex : CombinedNode → Option Nat
  | .text _ _ _ _ _ _ _ _ _ => none
  | .element _ _ _ _ _ _ _ _ i _ _ _ => i

/-- The mutable statistics and interactive-counter state threaded through
`create_combined_tree` (`stats` and `interactive_counter`). -/
structure FusionStats where
  total_nodes : Nat
  accessible_nodes : Nat
  interactive_nodes : Nat
  counter : Nat
deriving DecidableEq, Repr

/-- `localName or nodeName.lower()` — the tag-name fallback used when
building element and container nodes. -/
def tagNameOf (dom_node : DomNode) : String :=
  if dom_node.localName ≠ "" then dom_node.localName else pyLower dom_node.nodeName

/-- Replace a fused node's children list (`node.children = accessible_children`;
the loop that sets each child's `parent` back-reference to `node` is carried
by this ownership assignment in the tree model). -/
def CombinedNode.withChildren : CombinedNode → List CombinedNode → CombinedNode
  | .text a b c d e f g h _, cs => .text a b c d e f g h cs
  | .element a b c d e f g h i j k _, cs => .element a b c d e f g h i j k cs

/-- The container element synthesized in `convert_dom_node` when a node
without accessibility data has more than one accessible child: it carries
the DOM node's raw identity and parsed attributes, `accessibility = None`,
`interactive_index = None`, and owns the converted children. -/
def containerNode (dom_node : DomNode) (accessible_children : List CombinedNode) :
    CombinedNode :=
  .element dom_node.nodeId dom_node.backendNodeId dom_node.nodeType
    dom_node.nodeName dom_node.nodeValue (tagNameOf dom_node)
    (parseDomAttributes dom_node) none none false false accessible_children

/-- The `if not accessible_children / elif len == 1 / else` ladder at the
end of the no-accessibility branch of `convert_dom_node`: an empty list
contributes nothing, a single converted child is spliced upward in place of
the node, several children are wrapped in a synthesized container. -/
def promoteAccessibleChildren (dom_node : DomNode) :
    List CombinedNode → Option CombinedNode
  | [] => none
  | [c] => some c
  | c1 :: c2 :: rest => some (containerNode dom_node (c1 :: c2 :: rest))

/-- The effective accessibility data of a DOM node after the structural
suppression rule of `convert_dom_node`: the indexed lookup by backend node
id, forced to `None` for structural/document-level nodes. -/
def effectiveAccessibilityData (ax_by_backend_id : List (Nat × AXNodeM))
    (dom_node : DomNode) : Option AXNodeM :=
  if shouldIgnoreAccessibilityForNode dom_node then none
  else dictLookup ax_by_backend_id dom_node.backendNodeId

mutual

/-- `convert_dom_node` inside `create_combined_tree`: convert one DOM node,
threading the statistics/counter state.  Returns the fused node (or `none`)
and the updated state. -/
def convertDomNode (ax_by_backend_id : List (Nat × AXNodeM)) :
    DomNode → FusionStats → Option CombinedNode × FusionStats
  | .mk nid bid ntype nname lname nvalue attrs ch sh, st =>
    let dom_node := DomNode.mk nid bid ntype nname lname nvalue attrs ch sh
    let st := { st with total_nodes := st.total_nodes + 1 }
    match effectiveAccessibilityData ax_by_backend_id dom_node with
    | none =>
      let r := collectAccessibleChildren ax_by_backend_id ch sh st
      (promoteAccessibleChildren dom_node r.1, r.2)
    | some accessibility_data =>
      let st := { st with accessible_nodes := st.accessible_nodes + 1 }
      let is_interactive := isInteractiveNode (some accessibility_data)
      let interactive_index : Option Nat :=
        if is_interactive then some st.counter else none
      let st :=
        if is_interactive then
          { st with counter := st.counter + 1,
                    interactive_nodes := st.interactive_nodes + 1 }
        else st
      let node : CombinedNode :=
        if ntype == 3 then
          -- NodeType.TEXT_NODE: note that `CombinedTextNode` has no
          -- `interactive_index` field, so an index assigned above is lost
          .text nid bid ntype nname nvalue nvalue (some accessibility_data) false []
        else
          .element nid bid ntype nname nvalue (tagNameOf dom_node)
            (parseDomAttributes dom_node) (some accessibility_data)
            interactive_index sh.isSome false []
      let r := collectAccessibleChildren ax_by_backend_id ch sh st
      (some (node.withChildren r.1), r.2)
termination_by d _ => 3 * sizeOf d

/-- `collect_accessible_children`: convert the direct children, then the
shadow roots, concatenating the kept results in document order. -/
def collectAccessibleChildren (ax_by_backend_id : List (Nat × AXNodeM))
    (ch sh : Option (List DomNode)) (st : FusionStats) :
    List CombinedNode × FusionStats :=
  let r1 := convertDomOptList ax_by_backend_id ch st
  let r2 := convertDomOptList ax_by_backend_id sh r1.2
  (r1.1 ++ r2.1, r2.2)
termination_by 3 * (sizeOf ch + sizeOf sh) + 2

/-- One `if 'children' in dom_node and dom_node['children'] is not None`
guard of `collect_accessible_children`: an absent list yields nothing. -/
def convertDomOptList (ax_by_backend_id : List (Nat × AXNodeM)) :
    Option (List DomNode) → FusionStats → List CombinedNode × FusionStats
  | some l, st => convertDomList ax_by_backend_id l st
  | none, st => ([], st)
termination_by o _ => 3 * sizeOf o + 1

/-- The child loops of `collect_accessible_children`: convert each node in
order, keeping only the non-`None` results. -/
def convertDomList (ax_by_backend_id : List (Nat × AXNodeM)) :
    List DomNode → FusionStats → List CombinedNode × FusionStats
  | [], st => ([], st)
  | c :: rest, st =>
    let r := convertDomNode ax_by_backend_id c st
    let rs := convertDomList ax_by_backend_id rest r.2
    (match r.1 with
     | some n => n :: rs.1
     | none => rs.1, rs.2)
termination_by l _ => 3 * sizeOf l

end

/-- The result record (`CombinedTreeResponse`), restricted to the fields the
fusion engine fills in. -/
structure CombinedTreeResponseM where
  root : CombinedNode
  total_nodes : Nat
  accessible_nodes : Nat
  interactive_nodes : Nat

/-- Initial `stats` and `interactive_counter` state of `create_combined_tree`. -/
def initialStats : FusionStats :=
  { total_nodes := 0, accessible_nodes := 0, interactive_nodes := 0, counter := 0 }

/-- The placeholder root element synthesized when the root conversion yields
nothing: built from the DOM root's raw identity, with no accessibility data,
no interactive index, and the model defaults (empty attributes/children). -/
def placeholderRoot (root : DomNode) : CombinedNode :=
  .element root.nodeId root.backendNodeId root.nodeType root.nodeName
    root.nodeValue (tagNameOf root) [] none none false false []

/-- `CombinedTreeProcessor.create_combined_tree`.  The two protocol returns
are passed as their payloads: the AX tree's `nodes` list and the DOM tree's
`root` node. -/
def createCombinedTree (accessibility_tree : List AXNodeM) (dom_tree_root : DomNode) :
    CombinedTreeResponseM :=
  let ax_by_backend_id := axByBackendId accessibility_tree
  let r := convertDomNode ax_by_backend_id dom_tree_root initialStats
  let root_node :=
    match r.1 with
    | some n => n
    | none => placeholderRoot dom_tree_root
  { root := root_node,
    total_nodes := r.2.total_nodes,
    accessible_nodes := r.2.accessible_nodes,
    interactive_nodes := r.2.interactive_nodes }

/-! ### Observers on fused trees -/

mutual

/-- The `interactive_index` values of a fused tree, in depth-first pre-order
(a node's own index, when present, before its children's). -/
def preorderInteractiveIndices : CombinedNode → List Nat
  | .text _ _ _ _ _ _ _ _ cs => preorderInteractiveIndicesList cs
  | .element _ _ _ _ _ _ _ _ i _ _ cs =>
    (match i with
     | some k => [k]
     | none => []) ++ preorderInteractiveIndicesList cs
termination_by n => sizeOf n

/-- Pre-order index values of a forest, left to right. -/
def preorderInteractiveIndicesList : List CombinedNode → List Nat
  | [] => []
  | c :: rest => preorderInteractiveIndices c ++ preorderInteractiveIndicesList rest
termination_by l => sizeOf l

end

mutual

/-- The number of fused Element nodes carrying a non-null
`interactive_index` in a fused tree. -/
def countInteractiveNodes : CombinedNode → Nat
  | .text _ _ _ _ _ _ _ _ cs => countInteractiveNodesList cs
  | .element _ _ _ _ _ _ _ _ i _ _ cs =>
    (if i.isSome then 1 else 0) + countInteractiveNodesList cs
termination_by n => sizeOf n

/-- Interactive-node count of a forest. -/
def countInteractiveNodesList : List CombinedNode → Nat
  | [] => 0
  | c :: rest => countInteractiveNodes c + countInteractiveNodesList rest
termination_by l => sizeOf l

end

mutual

/-- Every node of a fused tree, in depth-first pre-order. -/
def allCombinedNodes : CombinedNode → List CombinedNode
  | .text a b c d e f g h cs =>
    .text a b c d e f g h cs :: allCombinedNodesList cs
  | .element a b c d e f g h i j k cs =>
    .element a b c d e f g h i j k cs :: allCombinedNodesList cs
termination_by n => sizeOf n

/-- Every node of a fused forest. -/
def allCombinedNodesList : List CombinedNode → List CombinedNode
  | [] => []
  | c :: rest => allCombinedNodes c ++ allCombinedNodesList rest
termination_by l => sizeOf l

end

mutual

/-- No DOM node in this subtree is a text node (`nodeType == 3`) whose
effective (post-suppression) accessibility data is judged interactive.
Such a node makes `convert_dom_node` advance the interactive counter while
building a `CombinedTextNode`, which has no `interactive_index` field. -/
def noInteractiveTextNodes (ax_by_backend_id : List (Nat × AXNodeM)) : DomNode → Bool
  | .mk nid bid ntype nname lname nvalue attrs ch sh =>
    (!(ntype == 3 &&
       isInteractiveNode
         (effectiveAccessibilityData ax_by_backend_id
           (.mk nid bid ntype nname lname nvalue attrs ch sh)))) &&
    noInteractiveTextNodesOpt ax_by_backend_id ch &&
    noInteractiveTextNodesOpt ax_by_backend_id sh
termination_by d => sizeOf d

/-- `noInteractiveTextNodes` over an optional child list. -/
def noInteractiveTextNodesOpt (ax_by_backend_id : List (Nat × AXNodeM)) :
    Option (List DomNode) → Bool
  | some l => noInteractiveTextNodesList ax_by_backend_id l
  | none => true
termination_by o => sizeOf o

/-- `noInteractiveTextNodes` over a child list. -/
def noInteractiveTextNodesList (ax_by_backend_id : List (Nat × AXNodeM)) :
    List DomNode → Bool
  | [] => true
  | c :: rest =>
    noInteractiveTextNodes ax_by_backend_id c &&
    noInteractiveTextNodesList ax_by_backend_id rest
termination_by l => sizeOf l

end

/-- Pre-order indices of an optional fused node (`None` contributes nothing). -/
def optIndices : Option CombinedNode → List Nat
  | some n => preorderInteractiveIndices n
  | none => []

theorem preorderInteractiveIndicesList_append (a b : List CombinedNode) :
    preorderInteractiveIndicesList (a ++ b) =
      preorderInteractiveIndicesList a ++ preorderInteractiveIndicesList b := by
  induction a with
  | nil => simp [preorderInteractiveIndicesList]
  | cons c rest ih => simp [preorderInteractiveIndicesList, ih]

theorem optIndices_promote (dom_node : DomNode) (cs : List CombinedNode) :
    optIndices (promoteAccessibleChildren dom_node cs) =
      preorderInteractiveIndicesList cs := by
  match cs with
  | [] => simp [promoteAccessibleChildren, optIndices, preorderInteractiveIndicesList]
  | [c] => simp [promoteAccessibleChildren, optIndices, preorderInteractiveIndicesList]
  | c1 :: c2 :: rest =>
    simp [promoteAccessibleChildren, optIndices, containerNode,
      preorderInteractiveIndices]

theorem preorderInteractiveIndices_withChildren (n : CombinedNode)
    (cs : List CombinedNode) :
    preorderInteractiveIndices (n.withChildren cs) =
      (match n.interactiveIndex with
       | some k => [k]
       | none => []) ++ preorderInteractiveIndicesList cs := by
  match n with
  | .text a b c d e f g h cs0 =>
    simp [CombinedNode.withChildren, preorderInteractiveIndices,
      CombinedNode.interactiveIndex]
  | .element a b c d e f g h i j k cs0 =>
    cases i <;>
      simp [CombinedNode.withChildren, preorderInteractiveIndices,
        CombinedNode.interactiveIndex]

/-- The central counter invariant of the fusion recursion: provided no
text-typed DOM node in the subtree is judged interactive, the conversion of
a subtree starting from counter value `c` emits exactly the indices
`c, c + 1, ...` in depth-first pre-order, and advances the counter and the
`interactive_nodes` statistic by their number. -/
theorem convertDomNode_indices (ax_by_backend_id : List (Nat × AXNodeM)) :
    (∀ (d : DomNode) (st : FusionStats),
      noInteractiveTextNodes ax_by_backend_id d = true → ∃ k,
        optIndices (convertDomNode ax_by_backend_id d st).1 =
          List.range' st.counter k ∧
        (convertDomNode ax_by_backend_id d st).2.counter = st.counter + k ∧
        (convertDomNode ax_by_backend_id d st).2.interactive_nodes =
          st.interactive_nodes + k) ∧
    (∀ (ch sh : Option (List DomNode)) (st : FusionStats),
      (noInteractiveTextNodesOpt ax_by_backend_id ch &&
       noInteractiveTextNodesOpt ax_by_backend_id sh) = true → ∃ k,
        preorderInteractiveIndicesList
            (collectAccessibleChildren ax_by_backend_id ch sh st).1 =
          List.range' st.counter k ∧
        (collectAccessibleChildren ax_by_backend_id ch sh st).2.counter =
          st.counter + k ∧
        (collectAccessibleChildren ax_by_backend_id ch sh st).2.interactive_nodes =
          st.interactive_nodes + k) ∧
    (∀ (o : Option (List DomNode)) (st : FusionStats),
      noInteractiveTextNodesOpt ax_by_backend_id o = true → ∃ k,
        preorderInteractiveIndicesList
            (convertDomOptList ax_by_backend_id o st).1 =
          List.range' st.counter k ∧
        (convertDomOptList ax_by_backend_id o st).2.counter = st.counter + k ∧
        (convertDomOptList ax_by_backend_id o st).2.interactive_nodes =
          st.interactive_nodes + k) ∧
    (∀ (l : List DomNode) (st : FusionStats),
      noInteractiveTextNodesList ax_by_backend_id l = true → ∃ k,
        preorderInteractiveIndicesList
            (convertDomList ax_by_backend_id l st).1 =
          List.range' st.counter k ∧
        (convertDomList ax_by_backend_id l st).2.counter = st.counter + k ∧
        (convertDomList ax_by_backend_id l st).2.interactive_nodes =
          st.interactive_nodes + k) := by
  refine convertDomNode.mutual_induct ax_by_backend_id
    (fun d st => noInteractiveTextNodes ax_by_backend_id d = true → ∃ k,
      optIndices (convertDomNode ax_by_backend_id d st).1 =
        List.range' st.counter k ∧
      (convertDomNode ax_by_backend_id d st).2.counter = st.counter + k ∧
      (convertDomNode ax_by_backend_id d st).2.interactive_nodes =
        st.interactive_nodes + k)
    (fun ch sh st =>
      (noInteractiveTextNodesOpt ax_by_backend_id ch &&
       noInteractiveTextNodesOpt ax_by_backend_id sh) = true → ∃ k,
        preorderInteractiveIndicesList
            (collectAccessibleChildren ax_by_backend_id ch sh st).1 =
          List.range' st.counter k ∧
        (collectAccessibleChildren ax_by_backend_id ch sh st).2.counter =
          st.counter + k ∧
        (collectAccessibleChildren ax_by_backend_id ch sh st).2.interactive_nodes =
          st.interactive_nodes + k)
    (fun o st => noInteractiveTextNodesOpt ax_by_backend_id o = true → ∃ k,
      preorderInteractiveIndicesList
          (convertDomOptList ax_by_backend_id o st).1 =
        List.range' st.counter k ∧
      (convertDomOptList ax_by_backend_id o st).2.counter = st.counter + k ∧
      (convertDomOptList ax_by_backend_id o st).2.interactive_nodes =
        st.interactive_nodes + k)
    (fun l st => noInteractiveTextNodesList ax_by_backend_id l = true → ∃ k,
      preorderInteractiveIndicesList
          (convertDomList ax_by_backend_id l st).1 =
        List.range' st.counter k ∧
      (convertDomList ax_by_backend_id l st).2.counter = st.counter + k ∧
      (convertDomList ax_by_backend_id l st).2.interactive_nodes =
        st.interactive_nodes + k)
    ?_ ?_ ?_ ?_ ?_ ?_ ?_
  case _ =>
    -- no effective accessibility data: children are promoted
    intro nid bid ntype nname lname nvalue attrs ch sh st dom_node st1 heff ih hgood
    rw [noInteractiveTextNodes] at hgood
    simp only [Bool.and_eq_true] at hgood
    obtain ⟨k, hk1, hk2, hk3⟩ := ih (by simp [hgood.1.2, hgood.2])
    refine ⟨k, ?_, ?_, ?_⟩ <;>
      simp [convertDomNode, heff, optIndices_promote, hk1, hk2, hk3, st1]
  case _ =>
    -- attached accessibility data
    intro nid bid ntype nname lname nvalue attrs ch sh st dom_node st1 a heff
    intro st2 is_interactive st3 ih hgood
    rw [noInteractiveTextNodes] at hgood
    simp only [Bool.and_eq_true] at hgood
    obtain ⟨k, hk1, hk2, hk3⟩ := ih (by simp [hgood.1.2, hgood.2])
    simp only [st3, st2, st1, is_interactive] at hk1 hk2 hk3
    simp only [convertDomNode, heff]
    rcases Bool.eq_false_or_eq_true (isInteractiveNode (some a)) with hI | hI
    · -- the node is judged interactive: it takes index st.counter
      have hnt : ¬(ntype = 3) := by
        have h := hgood.1.1
        rw [heff] at h
        rw [Bool.not_eq_true'] at h
        rcases Bool.and_eq_false_iff.mp h with h' | h'
        · simpa using h'
        · exact absurd hI (by simp [h'])
      simp [hI] at hk1 hk2 hk3 ⊢
      refine ⟨k + 1, ?_, ?_, ?_⟩
      · simp [optIndices, hnt, preorderInteractiveIndices_withChildren,
          CombinedNode.interactiveIndex, hk1, List.range'_succ]
      · simp [hk2]
        omega
      · simp [hk3]
        omega
    · -- not interactive: no index is taken
      simp [hI] at hk1 hk2 hk3 ⊢
      refine ⟨k, ?_, ?_, ?_⟩
      · by_cases hnt : ntype = 3 <;>
          simp [optIndices, hnt, preorderInteractiveIndices_withChildren,
            CombinedNode.interactiveIndex, preorderInteractiveIndices, hk1]
      · simp [hk2]
      · simp [hk3]
  case _ =>
    -- collect_accessible_children: children, then shadow roots
    intro ch sh st r1 ih1 ih2 hgood
    simp only [Bool.and_eq_true] at hgood
    obtain ⟨k1, h11, h12, h13⟩ := ih1 hgood.1
    obtain ⟨k2, h21, h22, h23⟩ := ih2 hgood.2
    refine ⟨k1 + k2, ?_, ?_, ?_⟩ <;>
      simp [collectAccessibleChildren, preorderInteractiveIndicesList_append,
        h11, h21, h12, h22, h13, h23, r1] <;> omega
  case _ =>
    intro l st ih hgood
    rw [noInteractiveTextNodesOpt] at hgood
    obtain ⟨k, h1, h2, h3⟩ := ih hgood
    exact ⟨k, by simp [convertDomOptList, h1, h2, h3]⟩
  case _ =>
    intro st _
    exact ⟨0, by simp [convertDomOptList, preorderInteractiveIndicesList]⟩
  case _ =>
    intro st _
    exact ⟨0, by simp [convertDomList, preorderInteractiveIndicesList]⟩
  case _ =>
    intro c rest st r ih1 ih2 hgood
    rw [noInteractiveTextNodesList] at hgood
    simp only [Bool.and_eq_true] at hgood
    obtain ⟨k1, h11, h12, h13⟩ := ih1 hgood.1
    obtain ⟨k2, h21, h22, h23⟩ := ih2 hgood.2
    refine ⟨k1 + k2, ?_, ?_, ?_⟩ <;>
      rcases hr : (convertDomNode ax_by_backend_id c st).1 with _ | n <;>
      simp_all [convertDomList, preorderInteractiveIndicesList_append,
        preorderInteractiveIndicesList, optIndices, r] <;> omega

theorem countInteractiveNodes_eq_length :
    (∀ n : CombinedNode,
      countInteractiveNodes n = (preorderInteractiveIndices n).length) ∧
    (∀ l : List CombinedNode,
      countInteractiveNodesList l = (preorderInteractiveIndicesList l).length) := by
  refine countInteractiveNodes.mutual_induct
    (fun n => countInteractiveNodes n = (preorderInteractiveIndices n).length)
    (fun l => countInteractiveNodesList l = (preorderInteractiveIndicesList l).length)
    ?_ ?_ ?_ ?_
  case _ =>
    intro a b c d e f g h cs ih
    simp [countInteractiveNodes, preorderInteractiveIndices, ih]
  case _ =>
    intro a b c d e f g h i j k cs ih
    cases i <;>
      simp [countInteractiveNodes, preorderInteractiveIndices, ih]
    omega
  case _ =>
    simp [countInteractiveNodes, countInteractiveNodesList,
      preorderInteractiveIndicesList]
  case _ =>
    intro c rest ih1 ih2
    simp [countInteractiveNodesList, preorderInteractiveIndicesList, ih1, ih2]

/-- C1, amended: for every run of the fusion in which no text-typed DOM node
carries interactive (focusable) effective accessibility data, the
`interactive_nodes` counter equals the number of fused Element nodes with a
non-null `interactive_index`, and those indices, read in depth-first
pre-order over the fused tree, are exactly `0, 1, ..., interactive_nodes - 1`
(unique, contiguous, starting at 0, assigned in pre-order). -/
theorem interactiveIndices_preorder_range (accessibility_tree : List AXNodeM)
    (dom_tree_root : DomNode)
    (hgood : noInteractiveTextNodes (axByBackendId accessibility_tree)
      dom_tree_root = true) :
    preorderInteractiveIndices
        (createCombinedTree accessibility_tree dom_tree_root).root =
      List.range
        (createCombinedTree accessibility_tree dom_tree_root).interactive_nodes ∧
    (createCombinedTree accessibility_tree dom_tree_root).interactive_nodes =
      countInteractiveNodes
        (createCombinedTree accessibility_tree dom_tree_root).root := by
  obtain ⟨k, h1, h2, h3⟩ :=
    (convertDomNode_indices (axByBackendId accessibility_tree)).1 dom_tree_root
      initialStats hgood
  rcases hr : (convertDomNode (axByBackendId accessibility_tree) dom_tree_root
      initialStats).1 with _ | n
  · have hk0 : k = 0 := by
      rw [hr] at h1
      simpa [optIndices, List.range'_eq_nil] using h1.symm
    subst hk0
    constructor
    · simp only [createCombinedTree]
      rw [hr, h3]
      simp [placeholderRoot, preorderInteractiveIndices,
        preorderInteractiveIndicesList, initialStats]
    · simp only [createCombinedTree]
      rw [hr, h3]
      simp [placeholderRoot, countInteractiveNodes,
        countInteractiveNodesList, initialStats]
  · rw [hr] at h1
    simp only [optIndices] at h1
    constructor
    · simp only [createCombinedTree]
      rw [hr, h3]
      simp [h1, List.range_eq_range', initialStats]
    · simp only [createCombinedTree]
      rw [hr, h3]
      simp [countInteractiveNodes_eq_length.1 n, h1, initialStats]


/-- The accessibility field of a placeholder root is absent. -/
theorem placeholderRoot_accessibility (root : DomNode) :
    (placeholderRoot root).accessibility = none := by
  simp [placeholderRoot, CombinedNode.accessibility]

/-- C3: for a DOM node whose effective (post-suppression) accessibility data
is absent, the conversion contributes nothing when no accessible children
were collected, splices a single collected child upward in place of the node
(discarding the node's own tag and attributes), and otherwise synthesizes a
container Element carrying the node's raw identity and parsed attributes
with `accessibility = None` and `interactive_index = None` and the collected
children attached (their parent back-references being exactly this ownership
in the tree model). -/
theorem convertDomNode_no_accessibility_cases (ax_by_backend_id : List (Nat × AXNodeM))
    (nid bid ntype : Nat) (nname lname nvalue : String)
    (attrs : Option (List String)) (ch sh : Option (List DomNode))
    (st : FusionStats)
    (hnone : effectiveAccessibilityData ax_by_backend_id
      (.mk nid bid ntype nname lname nvalue attrs ch sh) = none) :
    (convertDomNode ax_by_backend_id (.mk nid bid ntype nname lname nvalue attrs ch sh) st).2 =
      (collectAccessibleChildren ax_by_backend_id ch sh
        { st with total_nodes := st.total_nodes + 1 }).2 ∧
    ((collectAccessibleChildren ax_by_backend_id ch sh
        { st with total_nodes := st.total_nodes + 1 }).1 = [] →
      (convertDomNode ax_by_backend_id (.mk nid bid ntype nname lname nvalue attrs ch sh) st).1 =
        none) ∧
    (∀ c, (collectAccessibleChildren ax_by_backend_id ch sh
        { st with total_nodes := st.total_nodes + 1 }).1 = [c] →
      (convertDomNode ax_by_backend_id (.mk nid bid ntype nname lname nvalue attrs ch sh) st).1 =
        some c) ∧
    (∀ c1 c2 rest, (collectAccessibleChildren ax_by_backend_id ch sh
        { st with total_nodes := st.total_nodes + 1 }).1 = c1 :: c2 :: rest →
      (convertDomNode ax_by_backend_id (.mk nid bid ntype nname lname nvalue attrs ch sh) st).1 =
        some (CombinedNode.element nid bid ntype nname nvalue
          (tagNameOf (.mk nid bid ntype nname lname nvalue attrs ch sh))
          (parseDomAttributes (.mk nid bid ntype nname lname nvalue attrs ch sh))
          none none false false (c1 :: c2 :: rest))) := by
  refine ⟨?_, ?_, ?_, ?_⟩
  · simp [convertDomNode, hnone]
  · intro h
    simp [convertDomNode, hnone, h, promoteAccessibleChildren]
  · intro c h
    simp [convertDomNode, hnone, h, promoteAccessibleChildren]
  · intro c1 c2 rest h
    simp [convertDomNode, hnone, h, promoteAccessibleChildren, containerNode,
      DomNode.nodeId, DomNode.backendNodeId, DomNode.nodeType, DomNode.nodeName,
      DomNode.nodeValue]

/-- C5: for a DOM node whose node name or tag name lies in the fixed
structural set, the accessibility attachment is suppressed even when the
backend-id lookup would find a matching AX node: the conversion behaves
exactly as in the no-accessibility branch, and the only fused node it
synthesizes for this DOM node — the container — carries no accessibility
data. -/
theorem structural_node_accessibility_suppressed
    (ax_by_backend_id : List (Nat × AXNodeM))
    (nid bid ntype : Nat) (nname lname nvalue : String)
    (attrs : Option (List String)) (ch sh : Option (List DomNode))
    (st : FusionStats)
    (hstruct : shouldIgnoreAccessibilityForNode
      (.mk nid bid ntype nname lname nvalue attrs ch sh) = true) :
    effectiveAccessibilityData ax_by_backend_id
      (.mk nid bid ntype nname lname nvalue attrs ch sh) = none ∧
    convertDomNode ax_by_backend_id (.mk nid bid ntype nname lname nvalue attrs ch sh) st =
      (promoteAccessibleChildren (.mk nid bid ntype nname lname nvalue attrs ch sh)
        (collectAccessibleChildren ax_by_backend_id ch sh
          { st with total_nodes := st.total_nodes + 1 }).1,
       (collectAccessibleChildren ax_by_backend_id ch sh
         { st with total_nodes := st.total_nodes + 1 }).2) ∧
    (∀ cs, (containerNode (.mk nid bid ntype nname lname nvalue attrs ch sh) cs).accessibility =
      none) := by
  have heff : effectiveAccessibilityData ax_by_backend_id
      (.mk nid bid ntype nname lname nvalue attrs ch sh) = none := by
    simp [effectiveAccessibilityData, hstruct]
  refine ⟨heff, ?_, ?_⟩
  · simp [convertDomNode, heff]
  · intro cs
    simp [containerNode, CombinedNode.accessibility]

/-- C8: if the recursive conversion of the DOM root yields nothing, the
returned tree's root is the synthesized placeholder Element built from the
DOM root's raw identity, with no accessibility data and no interactive
index — the returned root is never absent. -/
theorem createCombinedTree_placeholder (accessibility_tree : List AXNodeM)
    (dom_tree_root : DomNode)
    (hnone : (convertDomNode (axByBackendId accessibility_tree) dom_tree_root
      initialStats).1 = none) :
    (createCombinedTree accessibility_tree dom_tree_root).root =
      placeholderRoot dom_tree_root ∧
    (placeholderRoot dom_tree_root).accessibility = none ∧
    (placeholderRoot dom_tree_root).interactiveIndex = none := by
  refine ⟨?_, placeholderRoot_accessibility dom_tree_root, ?_⟩
  · simp only [createCombinedTree]
    rw [hnone]
  · simp [placeholderRoot, CombinedNode.interactiveIndex]


/-! ### Dict lemmas -/

theorem dictLookup_map_replace_ne {κ α : Type} [BEq κ] [LawfulBEq κ]
    (m : List (κ × α)) (k k' : κ) (v : α) (hne : (k' == k) = false) :
    dictLookup (m.map (fun p => if p.1 == k then (k, v) else p)) k' =
      dictLookup m k' := by
  have hkk' : (k == k') = false := by
    rw [BEq.comm] at hne
    exact hne
  induction m with
  | nil => simp [dictLookup]
  | cons p m ih =>
    by_cases hp : (p.1 == k) = true
    · have hpk : p.1 = k := by simpa using hp
      simp only [List.map_cons, dictLookup, List.find?_cons, hp, if_true, hpk,
        beq_self_eq_true, hkk'] at ih ⊢
      exact ih
    · simp only [Bool.not_eq_true] at hp
      simp only [List.map_cons, dictLookup, List.find?_cons, hp,
        Bool.false_eq_true, if_false] at ih ⊢
      by_cases hq : (p.1 == k') = true
      · simp [hq]
      · simp only [Bool.not_eq_true] at hq
        simp only [hq] at ih ⊢
        exact ih

theorem dictLookup_map_replace_self {κ α : Type} [BEq κ] [LawfulBEq κ]
    (m : List (κ × α)) (k : κ) (v : α) :
    dictLookup (m.map (fun p => if p.1 == k then (k, v) else p)) k =
      if m.any (fun p => p.1 == k) then some v else none := by
  induction m with
  | nil => simp [dictLookup]
  | cons p m ih =>
    by_cases hp : (p.1 == k) = true
    · simp [dictLookup, List.find?_cons, hp, List.any_cons]
    · simp only [Bool.not_eq_true] at hp
      simp only [List.map_cons, dictLookup, List.find?_cons, hp,
        Bool.false_eq_true, if_false, List.any_cons, Bool.false_or] at ih ⊢
      exact ih

/-- Python dict assignment, observed through lookup: `m[k] = v` makes `k`
map to `v` and leaves every other key's binding unchanged. -/
theorem dictLookup_insert {κ α : Type} [BEq κ] [LawfulBEq κ]
    (m : List (κ × α)) (k k' : κ) (v : α) :
    dictLookup (dictInsert m k v) k' =
      if k' == k then some v else dictLookup m k' := by
  by_cases hany : (m.any (fun p => p.1 == k)) = true
  · by_cases hk : (k' == k) = true
    · have hkk : k' = k := by simpa using hk
      subst hkk
      simp [dictInsert, hany, hk, dictLookup_map_replace_self]
    · simp only [Bool.not_eq_true] at hk
      simp [dictInsert, hany, hk, dictLookup_map_replace_ne]
  · simp only [Bool.not_eq_true] at hany
    have hnone : List.find? (fun p => p.1 == k) m = none := by
      rw [List.find?_eq_none]
      intro p hp
      exact List.any_eq_false.mp hany p hp
    by_cases hk : (k' == k) = true
    · have hkk : k' = k := by simpa using hk
      subst hkk
      simp [dictInsert, hany, hk, dictLookup, List.find?_append, hnone]
    · simp only [Bool.not_eq_true] at hk
      have hkk' : (k == k') = false := by
        rw [BEq.comm] at hk
        exact hk
      simp [dictInsert, hany, hk, dictLookup, List.find?_append, hkk',
        List.find?_cons, Option.or_none]

/-- Python dict assignment keeps keys duplicate-free. -/
theorem dictInsert_keys_nodup {κ α : Type} [BEq κ] [LawfulBEq κ]
    (m : List (κ × α)) (k : κ) (v : α) (h : (dictKeys m).Nodup) :
    (dictKeys (dictInsert m k v)).Nodup := by
  by_cases hany : (m.any (fun p => p.1 == k)) = true
  · have : dictKeys (m.map (fun p => if p.1 == k then (k, v) else p)) =
        dictKeys m := by
      simp only [dictKeys, List.map_map]
      apply List.map_congr_left
      intro p _
      by_cases hp : (p.1 == k) = true
      · have : p.1 = k := by simpa using hp
        simp [hp, this]
      · simp only [Bool.not_eq_true] at hp
        simp [hp]
    simp [dictInsert, hany, this, h]
  · simp only [Bool.not_eq_true] at hany
    simp only [dictInsert, hany, Bool.false_eq_true, if_false, dictKeys,
      List.map_append, List.map_cons, List.map_nil]
    rw [List.nodup_append]
    refine ⟨h, List.nodup_singleton k, ?_⟩
    intro x hx
    have := List.any_eq_false.mp hany
    simp only [dictKeys, List.mem_map] at hx
    obtain ⟨p, hp, rfl⟩ := hx
    have := this p hp
    simp only [List.mem_singleton]
    intro hcon
    subst hcon
    simp at this


/-- The even/odd pairing of the flat DOM attribute sequence, in order, with
a trailing unpaired entry dropped (no deduplication yet). -/
def flatPairs : List String → List (String × String)
  | n :: v :: rest => (n, v) :: flatPairs rest
  | _ => []

theorem parseAttrsLoop_keys_nodup (attrs : List String)
    (m : List (String × String)) (h : (dictKeys m).Nodup) :
    (dictKeys (parseAttrsLoop m attrs)).Nodup := by
  induction attrs using flatPairs.induct generalizing m with
  | case1 n v rest ih =>
    rw [parseAttrsLoop]
    exact ih _ (dictInsert_keys_nodup m n v h)
  | case2 x hx =>
    match x, hx with
    | [], _ => simpa [parseAttrsLoop] using h
    | [a], _ => simpa [parseAttrsLoop] using h
    | a :: b :: rest, hx => exact (hx a b rest rfl).elim

theorem parseAttrsLoop_lookup (attrs : List String) (k : String)
    (m : List (String × String)) :
    dictLookup (parseAttrsLoop m attrs) k =
      (match ((flatPairs attrs).filter (fun p => p.1 == k)).getLast? with
       | some p => some p.2
       | none => dictLookup m k) := by
  induction attrs using flatPairs.induct generalizing m with
  | case1 n v rest ih =>
    rw [parseAttrsLoop, flatPairs, ih]
    by_cases hn : (n == k) = true
    · rw [List.filter_cons_of_pos (by simpa using hn)]
      rcases hrest : ((flatPairs rest).filter (fun p => p.1 == k)).getLast?
          with _ | p
      · have hfil : (flatPairs rest).filter (fun p => p.1 == k) = [] :=
          List.getLast?_eq_none_iff.mp hrest
        have hkn : (k == n) = true := by
          rw [BEq.comm] at hn
          exact hn
        rw [hfil]
        simp [dictLookup_insert, hkn]
      · rcases hfil : (flatPairs rest).filter (fun p => p.1 == k) with _ | ⟨q, l⟩
        · rw [hfil] at hrest
          simp at hrest
        · rw [hfil] at hrest ⊢
          rw [List.getLast?_cons_cons, hrest]
    · simp only [Bool.not_eq_true] at hn
      rw [List.filter_cons_of_neg (by simp [hn])]
      rcases hrest : ((flatPairs rest).filter (fun p => p.1 == k)).getLast?
          with _ | p
      · have hkn : (k == n) = false := by
          rw [BEq.comm] at hn
          exact hn
        simp [dictLookup_insert, hkn]
      · rw [hrest]
  | case2 x hx =>
    match x, hx with
    | [], _ => simp [parseAttrsLoop, flatPairs]
    | [a], _ => simp [parseAttrsLoop, flatPairs]
    | a :: b :: rest, hx => exact (hx a b rest rfl).elim

/-- C10: parsing the flat DOM attribute sequence yields a map with unique
keys in which a name occurring at several even positions is bound to the
value paired with its last occurrence, and a trailing unpaired entry is
dropped (the pairing `flatPairs` discards it). -/
theorem parseDomAttributes_last_occurrence (dom_node : DomNode)
    (k : String) :
    (dictKeys (parseDomAttributes dom_node)).Nodup ∧
    dictLookup (parseDomAttributes dom_node) k =
      (match dom_node.attributes with
       | none => none
       | some attrs =>
         (((flatPairs attrs).filter (fun p => p.1 == k)).getLast?).map (·.2)) := by
  constructor
  · rcases h : dom_node.attributes with _ | attrs
    · simp [parseDomAttributes, h, dictKeys]
    · simp only [parseDomAttributes, h]
      exact parseAttrsLoop_keys_nodup attrs [] (by simp [dictKeys])
  · rcases h : dom_node.attributes with _ | attrs
    · simp [parseDomAttributes, h, dictLookup]
    · simp only [parseDomAttributes, h]
      rw [parseAttrsLoop_lookup]
      rcases hrest : ((flatPairs attrs).filter (fun p => p.1 == k)).getLast?
          with _ | p
      · rw [hrest]
        simp [dictLookup]
      · rw [hrest]
        simp


/-! ### Backend id 0 is treated as missing (C9) -/

theorem dictInsert_keys_pred {κ α : Type} [BEq κ] (P : κ → Prop)
    (m : List (κ × α)) (k : κ) (v : α)
    (hm : ∀ p ∈ m, P p.1) (hk : P k) :
    ∀ p ∈ dictInsert m k v, P p.1 := by
  intro p hp
  rw [dictInsert] at hp
  by_cases hany : (m.any (fun q => q.1 == k)) = true
  · rw [if_pos hany] at hp
    obtain ⟨q, hq, hfq⟩ := List.mem_map.mp hp
    by_cases hqk : (q.1 == k) = true
    · rw [if_pos hqk] at hfq
      rw [← hfq]
      exact hk
    · simp only [Bool.not_eq_true] at hqk
      rw [hqk] at hfq
      simp only [Bool.false_eq_true, if_false] at hfq
      rw [← hfq]
      exact hm q hq
  · rw [if_neg hany] at hp
    rcases List.mem_append.mp hp with h | h
    · exact hm p h
    · rw [List.mem_singleton.mp h]
      exact hk

theorem axByBackendId_keys_ne_zero (nodes : List AXNodeM) :
    ∀ p ∈ axByBackendId nodes, p.1 ≠ 0 := by
  rw [axByBackendId]
  suffices h : ∀ (m : List (Nat × AXNodeM)), (∀ p ∈ m, p.1 ≠ 0) →
      ∀ p ∈ nodes.foldl (fun m ax =>
        if !ax.ignored && axBackendTruthy ax then
          dictInsert m (ax.backendDOMNodeId.getD 0) ax
        else m) m, p.1 ≠ 0 by
    exact h [] (by simp)
  induction nodes with
  | nil => intro m hm; simpa using hm
  | cons ax rest ih =>
    intro m hm
    simp only [List.foldl_cons]
    by_cases hcond : (!ax.ignored && axBackendTruthy ax) = true
    · rw [if_pos hcond]
      apply ih
      have hk : (ax.backendDOMNodeId.getD 0) ≠ 0 := by
        have htr : axBackendTruthy ax = true := by
          have h2 := hcond
          simp only [Bool.and_eq_true] at h2
          exact h2.2
        rcases hb : ax.backendDOMNodeId with _ | b
        · simp [axBackendTruthy, hb] at htr
        · simp [axBackendTruthy, hb] at htr
          simpa [hb] using htr
      exact dictInsert_keys_pred (fun x => x ≠ 0) m _ ax hm hk
    · rw [if_neg hcond]
      exact ih m hm

/-- The index lookup at backend id 0 always fails: such keys are never
inserted (the Python guard is on truthiness of `backendDOMNodeId`, so 0 is
excluded exactly like a missing id). -/
theorem axByBackendId_lookup_zero (nodes : List AXNodeM) :
    dictLookup (axByBackendId nodes) 0 = none := by
  rw [dictLookup, Option.map_eq_none']
  rw [List.find?_eq_none]
  intro p hp
  have := axByBackendId_keys_ne_zero nodes p hp
  simpa using this

/-- An AX node whose `backendDOMNodeId` is 0 or absent leaves the
`ax_by_backend_id` index unchanged. -/
theorem axByBackendId_zero_id_ignored (nodes : List AXNodeM) (ax : AXNodeM)
    (h : ax.backendDOMNodeId = some 0 ∨ ax.backendDOMNodeId = none) :
    axByBackendId (nodes ++ [ax]) = axByBackendId nodes := by
  rw [axByBackendId, axByBackendId, List.foldl_append, List.foldl_cons,
    List.foldl_nil]
  have htr : axBackendTruthy ax = false := by
    rcases h with h | h <;> simp [axBackendTruthy, h]
  simp [htr]

theorem allCombinedNodesList_append (a b : List CombinedNode) :
    allCombinedNodesList (a ++ b) =
      allCombinedNodesList a ++ allCombinedNodesList b := by
  induction a with
  | nil => simp [allCombinedNodesList]
  | cons c rest ih => simp [allCombinedNodesList, ih]

theorem allCombinedNodes_withChildren (n : CombinedNode) (cs : List CombinedNode) :
    allCombinedNodes (n.withChildren cs) =
      n.withChildren cs :: allCombinedNodesList cs := by
  match n with
  | .text a b c d e f g h cs0 => simp [CombinedNode.withChildren, allCombinedNodes]
  | .element a b c d e f g h i j k cs0 =>
    simp [CombinedNode.withChildren, allCombinedNodes]

theorem backend_withChildren (nid bid ntype : Nat) (nname nvalue : String)
    (a : AXNodeM) (tg : String) (ats : List (String × String))
    (ii : Option Nat) (sr : Bool) (cs : List CombinedNode) :
    ((if ntype == 3 then
        CombinedNode.text nid bid ntype nname nvalue nvalue (some a) false []
      else
        CombinedNode.element nid bid ntype nname nvalue tg ats (some a) ii sr
          false []).withChildren cs).backend_node_id = bid := by
  by_cases h : (ntype == 3) = true <;>
    simp [h, CombinedNode.withChildren, CombinedNode.backend_node_id]

theorem accessibility_withChildren (nid bid ntype : Nat) (nname nvalue : String)
    (a : AXNodeM) (tg : String) (ats : List (String × String))
    (ii : Option Nat) (sr : Bool) (cs : List CombinedNode) :
    ((if ntype == 3 then
        CombinedNode.text nid bid ntype nname nvalue nvalue (some a) false []
      else
        CombinedNode.element nid bid ntype nname nvalue tg ats (some a) ii sr
          false []).withChildren cs).accessibility = some a := by
  by_cases h : (ntype == 3) = true <;>
    simp [h, CombinedNode.withChildren, CombinedNode.accessibility]


/-- If the index has no entry at key 0, no fused node with backend id 0 ever
carries accessibility data, anywhere in any conversion result. -/
theorem convert_zero_backend_no_accessibility (ax_by_backend_id : List (Nat × AXNodeM))
    (hzero : dictLookup ax_by_backend_id 0 = none) :
    (∀ (d : DomNode) (st : FusionStats), ∀ n,
      (convertDomNode ax_by_backend_id d st).1 = some n →
      ∀ m ∈ allCombinedNodes n, m.backend_node_id = 0 → m.accessibility = none) ∧
    (∀ (ch sh : Option (List DomNode)) (st : FusionStats),
      ∀ m ∈ allCombinedNodesList (collectAccessibleChildren ax_by_backend_id ch sh st).1,
        m.backend_node_id = 0 → m.accessibility = none) ∧
    (∀ (o : Option (List DomNode)) (st : FusionStats),
      ∀ m ∈ allCombinedNodesList (convertDomOptList ax_by_backend_id o st).1,
        m.backend_node_id = 0 → m.accessibility = none) ∧
    (∀ (l : List DomNode) (st : FusionStats),
      ∀ m ∈ allCombinedNodesList (convertDomList ax_by_backend_id l st).1,
        m.backend_node_id = 0 → m.accessibility = none) := by
  refine convertDomNode.mutual_induct ax_by_backend_id
    (fun d st => ∀ n, (convertDomNode ax_by_backend_id d st).1 = some n →
      ∀ m ∈ allCombinedNodes n, m.backend_node_id = 0 → m.accessibility = none)
    (fun ch sh st =>
      ∀ m ∈ allCombinedNodesList (collectAccessibleChildren ax_by_backend_id ch sh st).1,
        m.backend_node_id = 0 → m.accessibility = none)
    (fun o st =>
      ∀ m ∈ allCombinedNodesList (convertDomOptList ax_by_backend_id o st).1,
        m.backend_node_id = 0 → m.accessibility = none)
    (fun l st =>
      ∀ m ∈ allCombinedNodesList (convertDomList ax_by_backend_id l st).1,
        m.backend_node_id = 0 → m.accessibility = none)
    ?_ ?_ ?_ ?_ ?_ ?_ ?_
  case _ =>
    intro nid bid ntype nname lname nvalue attrs ch sh st dom_node st1 heff ih
    intro n hn m hm hm0
    simp only [convertDomNode, heff] at hn
    rcases hcs : (collectAccessibleChildren ax_by_backend_id ch sh st1).1
        with _ | ⟨c1, cs'⟩
    · rw [hcs] at hn
      simp [promoteAccessibleChildren] at hn
    · rcases cs' with _ | ⟨c2, cs''⟩
      · rw [hcs] at hn
        simp only [promoteAccessibleChildren, Option.some.injEq] at hn
        subst hn
        apply ih m _ hm0
        rw [hcs]
        simpa [allCombinedNodesList] using hm
      · rw [hcs] at hn
        simp only [promoteAccessibleChildren, Option.some.injEq] at hn
        subst hn
        rw [containerNode, allCombinedNodes] at hm
        rcases List.mem_cons.mp hm with h | h
        · subst h
          simp [containerNode, CombinedNode.accessibility]
        · apply ih m _ hm0
          rw [hcs]
          simpa [allCombinedNodesList, allCombinedNodes] using h
  case _ =>
    intro nid bid ntype nname lname nvalue attrs ch sh st dom_node st1 a heff
    intro st2 is_interactive st3 ih
    intro n hn m hm hm0
    have hbid : bid ≠ 0 := by
      intro hb
      subst hb
      rw [effectiveAccessibilityData] at heff
      by_cases hig : shouldIgnoreAccessibilityForNode dom_node = true
      · rw [if_pos hig] at heff
        cases heff
      · rw [if_neg hig] at heff
        rw [show dom_node.backendNodeId = 0 from rfl] at heff
        rw [hzero] at heff
        cases heff
    simp only [convertDomNode, heff, Option.some.injEq] at hn
    subst hn
    rw [allCombinedNodes_withChildren] at hm
    rcases List.mem_cons.mp hm with h | h
    · subst h
      rw [backend_withChildren] at hm0
      exact absurd hm0 hbid
    · exact ih m h hm0
  case _ =>
    intro ch sh st r1 ih1 ih2
    intro m hm hm0
    simp only [collectAccessibleChildren, allCombinedNodesList_append,
      List.mem_append] at hm
    rcases hm with h | h
    · exact ih1 m h hm0
    · exact ih2 m h hm0
  case _ =>
    intro l st ih
    intro m hm hm0
    exact ih m (by simpa [convertDomOptList] using hm) hm0
  case _ =>
    intro st m hm
    simp [convertDomOptList, allCombinedNodesList] at hm
  case _ =>
    intro st m hm
    simp [convertDomList, allCombinedNodesList] at hm
  case _ =>
    intro c rest st r ih1 ih2
    intro m hm hm0
    rcases hr : (convertDomNode ax_by_backend_id c st).1 with _ | n
    · simp only [convertDomList, r, hr] at hm
      exact ih2 m hm hm0
    · simp only [convertDomList, r, hr, allCombinedNodesList,
        List.mem_append] at hm
      rcases hm with h | h
      · exact ih1 n hr m h hm0
      · exact ih2 m h hm0


/-- C9: an AX node whose `backendDOMNodeId` is 0 is excluded from the
backend-id index exactly like one with a missing id (the Python check is on
falsiness, not presence), the index never answers for key 0, and therefore
no fused node with backend node id 0 ever carries attached accessibility
data. -/
theorem zero_backend_id_treated_as_missing (nodes : List AXNodeM) (ax : AXNodeM)
    (accessibility_tree : List AXNodeM) (dom_tree_root : DomNode)
    (hz : ax.backendDOMNodeId = some 0 ∨ ax.backendDOMNodeId = none) :
    axByBackendId (nodes ++ [ax]) = axByBackendId nodes ∧
    dictLookup (axByBackendId accessibility_tree) 0 = none ∧
    (∀ m ∈ allCombinedNodes
        (createCombinedTree accessibility_tree dom_tree_root).root,
      m.backend_node_id = 0 → m.accessibility = none) := by
  refine ⟨axByBackendId_zero_id_ignored nodes ax hz,
    axByBackendId_lookup_zero accessibility_tree, ?_⟩
  intro m hm hm0
  rcases hr : (convertDomNode (axByBackendId accessibility_tree) dom_tree_root
      initialStats).1 with _ | n
  · have hroot : (createCombinedTree accessibility_tree dom_tree_root).root =
        placeholderRoot dom_tree_root := by
      simp only [createCombinedTree]
      rw [hr]
    rw [hroot] at hm
    rw [placeholderRoot, allCombinedNodes] at hm
    rcases List.mem_cons.mp hm with h | h
    · subst h
      simp [CombinedNode.accessibility]
    · simp [allCombinedNodesList] at h
  · have hroot : (createCombinedTree accessibility_tree dom_tree_root).root = n := by
      simp only [createCombinedTree]
      rw [hr]
    rw [hroot] at hm
    exact (convert_zero_backend_no_accessibility (axByBackendId accessibility_tree)
      (axByBackendId_lookup_zero accessibility_tree)).1 dom_tree_root initialStats
      n hr m hm hm0


/-! ### Tree serializer (`dom_tree_serializer.py`) -/

/-- `has_accessibility_data` on a combined node. -/
def CombinedNode.hasAccessibilityData (n : CombinedNode) : Bool :=
  n.accessibility.isSome

/-- The element's `tag_name` (text nodes have none; unused there). -/
def CombinedNode.tag_name : CombinedNode → String
  | .text _ _ _ _ _ _ _ _ _ => ""
  | .element _ _ _ _ _ t _ _ _ _ _ _ => t

/-- The element's attribute map (text nodes have none). -/
def CombinedNode.attributesOf : CombinedNode → List (String × String)
  | .text _ _ _ _ _ _ _ _ _ => []
  | .element _ _ _ _ _ _ ats _ _ _ _ _ => ats

/-- The node's `is_new` flag. -/
def CombinedNode.isNew : CombinedNode → Bool
  | .text _ _ _ _ _ _ _ n _ => n
  | .element _ _ _ _ _ _ _ _ _ _ n _ => n

/-- `get_accessibility_role`: the stringified role value when the attached
accessibility data has a truthy role value (a pydantic model instance is
always truthy, so only presence and value-truthiness are tested). -/
def CombinedNode.getAccessibilityRole (n : CombinedNode) : Option String :=
  match n.accessibility with
  | some acc =>
    match acc.role with
    | some r =>
      match r.value with
      | some jv => if jv.truthy then some jv.toStr else none
      | none => none
    | none => none
  | none => none

/-- `get_accessibility_name`, built exactly like the role accessor. -/
def CombinedNode.getAccessibilityName (n : CombinedNode) : Option String :=
  match n.accessibility with
  | some acc =>
    match acc.name with
    | some r =>
      match r.value with
      | some jv => if jv.truthy then some jv.toStr else none
      | none => none
    | none => none
  | none => none

mutual

/-- Structural equality test on combined nodes (Python compares nodes by
value; a strict subtree of a finite tree never equals the whole tree). -/
def combinedBeq : CombinedNode → CombinedNode → Bool
  | .text a b c d e f g h cs, .text a' b' c' d' e' f' g' h' cs' =>
    a == a' && b == b' && c == c' && d == d' && e == e' && f == f' &&
    g == g' && h == h' && combinedBeqList cs cs'
  | .element a b c d e f g h i j k cs, .element a' b' c' d' e' f' g' h' i' j' k' cs' =>
    a == a' && b == b' && c == c' && d == d' && e == e' && f == f' &&
    g == g' && h == h' && i == i' && j == j' && k == k' && combinedBeqList cs cs'
  | _, _ => false
termination_by n _ => sizeOf n

/-- Structural equality on child lists. -/
def combinedBeqList : List CombinedNode → List CombinedNode → Bool
  | [], [] => true
  | c :: cs, d :: ds => combinedBeq c d && combinedBeqList cs ds
  | _, _ => false
termination_by l _ => sizeOf l

end

mutual

/-- The `collect_text` worker of
`get_all_text_till_next_accessible_element`: stop at the depth bound, skip
any accessible Element other than the starting node itself, collect text
leaves, and recurse into element children. -/
def collectTextParts (self : CombinedNode) (max_depth : Int) :
    CombinedNode → Int → List String
  | node, current_depth =>
    if max_depth != -1 && current_depth > max_depth then []
    else if !node.isText && !combinedBeq node self && node.hasAccessibilityData then []
    else
      match node with
      | .text _ _ _ _ _ t _ _ _ => [t]
      | .element _ _ _ _ _ _ _ _ _ _ _ cs =>
        collectTextPartsList self max_depth cs (current_depth + 1)
termination_by n _ => sizeOf n

/-- `collect_text` over the children of an element. -/
def collectTextPartsList (self : CombinedNode) (max_depth : Int) :
    List CombinedNode → Int → List String
  | [], _ => []
  | c :: rest, current_depth =>
    collectTextParts self max_depth c current_depth ++
    collectTextPartsList self max_depth rest current_depth
termination_by l _ => sizeOf l

end

/-- `get_all_text_till_next_accessible_element` (default `max_depth = -1`):
newline-join the collected parts and strip. -/
def CombinedNode.getAllTextTillNextAccessibleElement (self : CombinedNode)
    (max_depth : Int := -1) : String :=
  pyStrip (String.intercalate "\n" (collectTextParts self max_depth self 0))

/-- `SimplifiedNode`: the serializer's ephemeral working node. -/
inductive SimplifiedNode where
  | mk (original_node : CombinedNode) (children : List SimplifiedNode)
      (should_display : Bool)

def SimplifiedNode.original_node : SimplifiedNode → CombinedNode
  | .mk o _ _ => o

def SimplifiedNode.children : SimplifiedNode → List SimplifiedNode
  | .mk _ cs _ => cs

def SimplifiedNode.should_display : SimplifiedNode → Bool
  | .mk _ _ d => d

/-- `SimplifiedNode.is_clickable`: an Element with a non-null
`interactive_index`. -/
def SimplifiedNode.is_clickable (s : SimplifiedNode) : Bool :=
  match s.original_node with
  | .element _ _ _ _ _ _ _ _ i _ _ _ => i.isSome
  | .text _ _ _ _ _ _ _ _ _ => false

/-- `SimplifiedNode.is_text_node`. -/
def SimplifiedNode.is_text_node (s : SimplifiedNode) : Bool :=
  s.original_node.isText

/-- `SimplifiedNode.count_direct_clickable_children`. -/
def SimplifiedNode.count_direct_clickable_children (s : SimplifiedNode) : Nat :=
  s.children.countP (fun c => c.is_clickable)

mutual

/-- `SimplifiedNode.has_any_clickable_descendant`: this node or any
descendant is clickable. -/
def SimplifiedNode.has_any_clickable_descendant : SimplifiedNode → Bool
  | .mk orig cs disp =>
    (SimplifiedNode.mk orig cs disp).is_clickable || anyClickableDescendant cs
termination_by s => sizeOf s

/-- `any(child.has_any_clickable_descendant() for child in children)`. -/
def anyClickableDescendant : List SimplifiedNode → Bool
  | [] => false
  | c :: rest => c.has_any_clickable_descendant || anyClickableDescendant rest
termination_by l => sizeOf l

end

mutual

/-- `DOMTreeSerializer._optimize_tree`: optimize children depth-first, then
keep text leaves, drop nodes with no clickable descendant and no direct
text child, and collapse redundant non-clickable wrappers (single child is
promoted, empty is dropped, several children make an invisible
pass-through). -/
def optimizeTree : SimplifiedNode → Option SimplifiedNode
  | .mk orig cs disp =>
    let optimized_children := optimizeChildren cs
    let node := SimplifiedNode.mk orig optimized_children disp
    if node.is_text_node then some node
    else if !node.has_any_clickable_descendant &&
            !(optimized_children.any (fun c => c.is_text_node)) then none
    else if !node.is_clickable then
      let clickable_children_count := node.count_direct_clickable_children
      let text_children_count :=
        optimized_children.countP (fun c => c.is_text_node)
      if clickable_children_count ≤ 1 && text_children_count == 0 then
        match optimized_children with
        | [c] => some c
        | [] => none
        | c1 :: c2 :: rest =>
          some (SimplifiedNode.mk orig (c1 :: c2 :: rest) false)
      else some node
    else some node
termination_by s => sizeOf s

/-- The child loop of `_optimize_tree`, keeping non-`None` results. -/
def optimizeChildren : List SimplifiedNode → List SimplifiedNode
  | [] => []
  | c :: rest =>
    match optimizeTree c with
    | some t => t :: optimizeChildren rest
    | none => optimizeChildren rest
termination_by l => sizeOf l

end


/-- The dict comprehension opening `_build_attributes_string`: keep the
attributes whose key is in the allow-list, stripping each value. -/
def attributesToInclude (node : CombinedNode) (include_attributes : List String) :
    List (String × String) :=
  (node.attributesOf.filter (fun kv => include_attributes.contains kv.1)).map
    (fun kv => (kv.1, pyStrip kv.2))

/-- The scan of `ordered_keys` computing `keys_to_remove`: a key is dropped
when its (stripped) value is longer than 5 characters and the same value was
already seen at an earlier key.  Python's `seen_values` maps value to first
key, but only membership of the value is ever read, so the seen set is a
value list here. -/
def dedupLoop (attributes_to_include : List (String × String)) :
    List String → List String → List String
  | [], _ => []
  | k :: rest, seen_values =>
    let value := (dictLookup attributes_to_include k).getD ""
    if value.length > 5 then
      if seen_values.contains value then
        k :: dedupLoop attributes_to_include rest seen_values
      else dedupLoop attributes_to_include rest (value :: seen_values)
    else dedupLoop attributes_to_include rest seen_values

/-- The duplicate-value removal block of `_build_attributes_string`,
guarded by `len(ordered_keys) > 1`. -/
def removeDuplicateValues (attributes_to_include : List (String × String))
    (include_attributes : List String) : List (String × String) :=
  let ordered_keys :=
    include_attributes.filter (fun k => dictContains attributes_to_include k)
  if ordered_keys.length > 1 then
    let keys_to_remove := dedupLoop attributes_to_include ordered_keys []
    attributes_to_include.filter (fun kv => !(keys_to_remove.contains kv.1))
  else attributes_to_include

/-- `if role and node.tag_name == role: attributes_to_include.pop('role')`. -/
def removeRedundantRole (node : CombinedNode)
    (attributes_to_include : List (String × String)) : List (String × String) :=
  match node.getAccessibilityRole with
  | some role =>
    if node.tag_name == role then dictErase attributes_to_include "role"
    else attributes_to_include
  | none => attributes_to_include

/-- One iteration of the loop over `['aria-label', 'placeholder', 'title']`:
delete the attribute when its stripped, lowercased value is non-empty and
equals the element's stripped, lowercased text or (truthy) accessibility
name. -/
def textMatchStep (text : String) (name : Option String)
    (m : List (String × String)) (attr : String) : List (String × String) :=
  if pyLower (pyStrip ((dictLookup m attr).getD "")) ≠ "" &&
     (pyLower (pyStrip ((dictLookup m attr).getD "")) == pyLower (pyStrip text) ||
      (match name with
       | some nm =>
         nm ≠ "" &&
         pyLower (pyStrip ((dictLookup m attr).getD "")) == pyLower (pyStrip nm)
       | none => false)) then
    dictErase m attr
  else m

/-- The loop of `_build_attributes_string` over
`['aria-label', 'placeholder', 'title']`. -/
def removeTextMatchingAttrs (attributes_to_include : List (String × String))
    (text : String) (name : Option String) : List (String × String) :=
  ["aria-label", "placeholder", "title"].foldl (textMatchStep text name)
    attributes_to_include

/-- `cap_text_length`: quote a value, truncating with an ellipsis. -/
def capTextLength (text : String) (max_length : Nat) : String :=
  if text.length > max_length then "\"" ++ text.take max_length ++ "...\""
  else "\"" ++ text ++ "\""

/-- `DOMTreeSerializer._build_attributes_string`. -/
def buildAttributesString (node : CombinedNode) (include_attributes : List String)
    (text : String) : String :=
  let attributes_to_include := attributesToInclude node include_attributes
  let attributes_to_include :=
    removeDuplicateValues attributes_to_include include_attributes
  let name := node.getAccessibilityName
  let attributes_to_include := removeRedundantRole node attributes_to_include
  let attributes_to_include := removeTextMatchingAttrs attributes_to_include text name
  if attributes_to_include ≠ [] then
    String.intercalate " "
      (attributes_to_include.map (fun kv => kv.1 ++ "=" ++ capTextLength kv.2 15))
  else ""

/-- The displayed line of one Element in `_serialize_tree`: bracketed index
(optionally starred when `is_new`) for interactive elements, plain tag for
non-interactive ones, then attributes, a `name=` suffix when the
accessibility name differs from the text, and the text content. -/
def elementLine (element : CombinedNode) (include_attributes : List String)
    (depth_str : String) : String :=
  let text := element.getAllTextTillNextAccessibleElement
  let attributes_html_str := buildAttributesString element include_attributes text
  let line :=
    match element.interactiveIndex with
    | some idx =>
      if element.isNew then
        depth_str ++ "*[" ++ toString idx ++ "]<" ++ element.tag_name
      else
        depth_str ++ "[" ++ toString idx ++ "]<" ++ element.tag_name
    | none => depth_str ++ "<" ++ element.tag_name
  let line :=
    if attributes_html_str ≠ "" then line ++ " " ++ attributes_html_str else line
  let line :=
    match element.getAccessibilityName with
    | some name =>
      if name ≠ "" && pyStrip name ≠ pyStrip text then
        let name_display :=
          if name.length > 20 then "\"" ++ name.take 20 ++ "...\""
          else "\"" ++ name ++ "\""
        line ++ " name=" ++ name_display
      else line
    | none => line
  let line :=
    if text ≠ "" then
      let t := pyStrip text
      let t := if t.length > 100 then t.take 100 ++ "..." else t
      line ++ ">" ++ t
    else line
  line ++ " />"

mutual

/-- `DOMTreeSerializer._serialize_tree`: render one simplified node and its
children, tab-indented by depth; invisible pass-through nodes render only
their children at the same depth. -/
def serializeTree (include_attributes : List String) :
    SimplifiedNode → Nat → String
  | .mk orig cs disp, depth =>
    let depth_str : String := ⟨List.replicate depth '\t'⟩
    match orig with
    | .text _ _ _ _ _ t _ _ _ =>
      let text_content := pyStrip t
      let first :=
        if text_content ≠ "" then
          [depth_str ++
            (if text_content.length > 100 then text_content.take 100 ++ "..."
             else text_content)]
        else []
      String.intercalate "\n"
        (first ++ (serializeChildren include_attributes cs (depth + 1)).filter
          (fun s => s ≠ ""))
    | .element a b c d e f g h i j k cs0 =>
      if !disp then
        String.intercalate "\n"
          ((serializeChildren include_attributes cs depth).filter
            (fun s => s ≠ ""))
      else
        let line :=
          elementLine (.element a b c d e f g h i j k cs0) include_attributes
            depth_str
        String.intercalate "\n"
          (line :: (serializeChildren include_attributes cs (depth + 1)).filter
            (fun s => s ≠ ""))
termination_by s _ => sizeOf s

/-- The child loop of `_serialize_tree`. -/
def serializeChildren (include_attributes : List String) :
    List SimplifiedNode → Nat → List String
  | [], _ => []
  | c :: rest, depth =>
    serializeTree include_attributes c depth ::
    serializeChildren include_attributes rest depth
termination_by l _ => sizeOf l

end


/-! ### Properties of the optimize pass (C4) -/

theorem optimizeChildren_mem (l : List SimplifiedNode) (t : SimplifiedNode)
    (h : t ∈ optimizeChildren l) : ∃ c ∈ l, optimizeTree c = some t := by
  induction l with
  | nil => simp [optimizeChildren] at h
  | cons c rest ih =>
    rw [optimizeChildren] at h
    rcases hc : optimizeTree c with _ | u
    · rw [hc] at h
      obtain ⟨d, hd, hdt⟩ := ih h
      exact ⟨d, List.mem_cons_of_mem c hd, hdt⟩
    · rw [hc] at h
      rcases List.mem_cons.mp h with rfl | h
      · exact ⟨c, List.mem_cons_self c rest, hc⟩
      · obtain ⟨d, hd, hdt⟩ := ih h
        exact ⟨d, List.mem_cons_of_mem c hd, hdt⟩

/-- The optimize pass never turns a non-text node into a text node: a kept
result that is a text leaf came from a text input node. -/
theorem optimizeTree_text_preserved (s t : SimplifiedNode)
    (h : optimizeTree s = some t) (ht : t.is_text_node = true) :
    s.is_text_node = true := by
  match s with
  | .mk orig cs disp =>
    rw [optimizeTree] at h
    by_cases htxt : (SimplifiedNode.mk orig (optimizeChildren cs) disp).is_text_node = true
    · simpa [SimplifiedNode.is_text_node, SimplifiedNode.original_node] using htxt
    · exfalso
      simp only [htxt, Bool.false_eq_true, if_false] at h
      rcases hdrop : (!(SimplifiedNode.mk orig (optimizeChildren cs)
          disp).has_any_clickable_descendant &&
          !((optimizeChildren cs).any (fun c => c.is_text_node))) with _ | _
      · rw [hdrop] at h
        simp only [Bool.false_eq_true, if_false] at h
        by_cases hclick : (SimplifiedNode.mk orig (optimizeChildren cs)
            disp).is_clickable = true
        · simp only [hclick, Bool.not_true, Bool.false_eq_true, if_false,
            Option.some.injEq] at h
          subst h
          exact htxt ht
        · simp only [Bool.not_eq_true] at hclick
          simp only [hclick, Bool.not_false, if_true] at h
          by_cases hcnt : ((SimplifiedNode.mk orig (optimizeChildren cs)
              disp).count_direct_clickable_children ≤ 1 &&
              (optimizeChildren cs).countP (fun c => c.is_text_node) == 0) = true
          · simp only [hcnt, if_true] at h
            rcases hoc : optimizeChildren cs with _ | ⟨c1, cs'⟩
            · rw [hoc] at h
              cases h
            · rcases cs' with _ | ⟨c2, cs''⟩
              · rw [hoc] at h hcnt
                simp only [Option.some.injEq] at h
                subst h
                simp only [SimplifiedNode.count_direct_clickable_children,
                  Bool.and_eq_true, beq_iff_eq] at hcnt
                have := hcnt.2
                simp [List.countP_cons, ht] at this
              · rw [hoc] at h
                simp only [Option.some.injEq] at h
                subst h
                exact htxt ht
          · simp only [Bool.not_eq_true] at hcnt
            simp only [hcnt, Bool.false_eq_true, if_false,
              Option.some.injEq] at h
            subst h
            exact htxt ht
      · rw [hdrop] at h
        cases h

/-- Structural strong induction over simplified nodes. -/
theorem SimplifiedNode.strongInd (motive : SimplifiedNode → Prop)
    (h : ∀ (orig : CombinedNode) (cs : List SimplifiedNode) (disp : Bool),
      (∀ c ∈ cs, motive c) → motive (.mk orig cs disp)) :
    ∀ s, motive s
  | .mk orig cs disp =>
    h orig cs disp (fun c _hmem => SimplifiedNode.strongInd motive h c)
termination_by s => sizeOf s
decreasing_by
  have := List.sizeOf_lt_of_mem _hmem
  simp only [SimplifiedNode.mk.sizeOf_spec]
  omega

theorem anyClickableDescendant_optimizeChildren (cs : List SimplifiedNode)
    (hcs : anyClickableDescendant cs = false)
    (ih : ∀ c ∈ cs, c.has_any_clickable_descendant = false →
      ∀ t, optimizeTree c = some t → t.has_any_clickable_descendant = false) :
    anyClickableDescendant (optimizeChildren cs) = false := by
  induction cs with
  | nil => simp [optimizeChildren, anyClickableDescendant]
  | cons c rest ihl =>
    rw [anyClickableDescendant] at hcs
    simp only [Bool.or_eq_false_iff] at hcs
    rw [optimizeChildren]
    rcases hc : optimizeTree c with _ | u
    · exact ihl hcs.2 (fun d hd => ih d (List.mem_cons_of_mem c hd))
    · rw [anyClickableDescendant]
      simp only [Bool.or_eq_false_iff]
      refine ⟨ih c (List.mem_cons_self c rest) hcs.1 u hc, ?_⟩
      exact ihl hcs.2 (fun d hd => ih d (List.mem_cons_of_mem c hd))

/-- The optimize pass never creates a clickable node: if no node of the
input subtree is clickable, no node of the kept optimized subtree is. -/
theorem optimizeTree_no_clickable_preserved (s : SimplifiedNode)
    (hs : s.has_any_clickable_descendant = false) :
    ∀ t, optimizeTree s = some t → t.has_any_clickable_descendant = false := by
  induction s using SimplifiedNode.strongInd with
  | h orig cs disp ih =>
    intro t h
    rw [SimplifiedNode.has_any_clickable_descendant] at hs
    simp only [Bool.or_eq_false_iff] at hs
    have hoc : anyClickableDescendant (optimizeChildren cs) = false :=
      anyClickableDescendant_optimizeChildren cs hs.2 ih
    have hclick : ∀ (cs' : List SimplifiedNode) (d' : Bool),
        (SimplifiedNode.mk orig cs' d').is_clickable = false := by
      intro cs' d'
      simpa [SimplifiedNode.is_clickable, SimplifiedNode.original_node]
        using hs.1
    have hnode : ∀ (cs' : List SimplifiedNode) (d' : Bool),
        anyClickableDescendant cs' = false →
        (SimplifiedNode.mk orig cs' d').has_any_clickable_descendant = false := by
      intro cs' d' hcs
      rw [SimplifiedNode.has_any_clickable_descendant]
      simp only [Bool.or_eq_false_iff]
      exact ⟨hclick cs' d', hcs⟩
    rw [optimizeTree] at h
    by_cases htxt : (SimplifiedNode.mk orig (optimizeChildren cs)
        disp).is_text_node = true
    · rw [if_pos htxt] at h
      simp only [Option.some.injEq] at h
      subst h
      exact hnode _ _ hoc
    · rw [if_neg htxt] at h
      rcases hdrop : (!(SimplifiedNode.mk orig (optimizeChildren cs)
          disp).has_any_clickable_descendant &&
          !((optimizeChildren cs).any (fun c => c.is_text_node))) with _ | _
      · rw [hdrop] at h
        simp only [Bool.false_eq_true, if_false] at h
        rw [if_pos (by simp [hclick] : (!(SimplifiedNode.mk orig
            (optimizeChildren cs) disp).is_clickable) = true)] at h
        by_cases hcnt : ((SimplifiedNode.mk orig (optimizeChildren cs)
            disp).count_direct_clickable_children ≤ 1 &&
            (optimizeChildren cs).countP (fun c => c.is_text_node) == 0) = true
        · rw [if_pos hcnt] at h
          rcases hocs : optimizeChildren cs with _ | ⟨c1, cs'⟩
          · rw [hocs] at h
            cases h
          · rcases cs' with _ | ⟨c2, cs''⟩
            · rw [hocs] at h hoc
              simp only [Option.some.injEq] at h
              subst h
              rw [anyClickableDescendant] at hoc
              simp only [Bool.or_eq_false_iff] at hoc
              exact hoc.1
            · rw [hocs] at h hoc
              simp only [Option.some.injEq] at h
              subst h
              exact hnode _ _ hoc
        · rw [if_neg hcnt] at h
          simp only [Option.some.injEq] at h
          subst h
          exact hnode _ _ hoc
      · rw [hdrop] at h
        simp only [if_true] at h
        cases h

/-- C4, amended: a non-text simplified node with no clickable node anywhere
in its subtree (itself included — `has_any_clickable_descendant` also tests
the node itself) and no direct text-node child is dropped entirely by the
optimize pass. -/
theorem optimize_drops_nonclickable_textless (s : SimplifiedNode)
    (h1 : s.is_text_node = false)
    (h2 : s.has_any_clickable_descendant = false)
    (h3 : ∀ c ∈ s.children, c.is_text_node = false) :
    optimizeTree s = none := by
  match s with
  | .mk orig cs disp =>
    simp only [SimplifiedNode.children] at h3
    rw [SimplifiedNode.has_any_clickable_descendant] at h2
    simp only [Bool.or_eq_false_iff] at h2
    have hoc : anyClickableDescendant (optimizeChildren cs) = false :=
      anyClickableDescendant_optimizeChildren cs h2.2
        (fun c _ hcl t ht => optimizeTree_no_clickable_preserved c hcl t ht)
    have htxtc : ((optimizeChildren cs).any (fun c => c.is_text_node)) = false := by
      rw [List.any_eq_false]
      intro t htmem
      obtain ⟨c, hc, hct⟩ := optimizeChildren_mem cs t htmem
      intro htt
      have := optimizeTree_text_preserved c t hct htt
      rw [h3 c hc] at this
      cases this
    have htxt : (SimplifiedNode.mk orig (optimizeChildren cs)
        disp).is_text_node = false := by
      simpa [SimplifiedNode.is_text_node, SimplifiedNode.original_node]
        using h1
    have hnode : (SimplifiedNode.mk orig (optimizeChildren cs)
        disp).has_any_clickable_descendant = false := by
      rw [SimplifiedNode.has_any_clickable_descendant]
      simp only [Bool.or_eq_false_iff]
      constructor
      · simpa [SimplifiedNode.is_clickable, SimplifiedNode.original_node]
          using h2.1
      · exact hoc
    rw [optimizeTree, if_neg (by simp [htxt]),
      if_pos (by simp [hnode, htxtc])]

/-- The concrete input refuting C4 as stated: a clickable leaf Element
(interactive index 0) with no children at all. -/
def c4CexElem : CombinedNode :=
  .element 1 1 1 "BUTTON" "" "button" [] none (some 0) false false []

/-- C4, counterexample: this simplified node is not a text node, has no
clickable node strictly beneath it and no direct text child, yet the
optimize pass keeps it (it is clickable itself), contradicting the claim
that every such node is dropped. -/
theorem optimize_keeps_clickable_leaf :
    (SimplifiedNode.mk c4CexElem [] true).is_text_node = false ∧
    anyClickableDescendant (SimplifiedNode.mk c4CexElem [] true).children = false ∧
    (∀ c ∈ (SimplifiedNode.mk c4CexElem [] true).children, c.is_text_node = false) ∧
    optimizeTree (SimplifiedNode.mk c4CexElem [] true) =
      some (SimplifiedNode.mk c4CexElem [] true) := by
  refine ⟨?_, ?_, ?_, ?_⟩
  · simp [SimplifiedNode.is_text_node, SimplifiedNode.original_node, c4CexElem,
      CombinedNode.isText]
  · simp [SimplifiedNode.children, anyClickableDescendant]
  · simp [SimplifiedNode.children]
  · rw [optimizeTree]
    simp [optimizeChildren, SimplifiedNode.is_text_node,
      SimplifiedNode.original_node, c4CexElem, CombinedNode.isText,
      SimplifiedNode.has_any_clickable_descendant, SimplifiedNode.is_clickable,
      anyClickableDescendant]


/-! ### Duplicate-value removal (C6) -/

/-- The (stripped) value the dedup scan reads for a key
(`attributes_to_include[key]`, absent keys giving the empty default). -/
def attrValue (m : List (String × String)) (k : String) : String :=
  (dictLookup m k).getD ""

theorem dedupLoop_subset (m : List (String × String)) (ks seen : List String)
    (k : String) (h : k ∈ dedupLoop m ks seen) : k ∈ ks := by
  induction ks generalizing seen with
  | nil => simp [dedupLoop] at h
  | cons a rest ih =>
    rw [dedupLoop] at h
    by_cases hlen : ((dictLookup m a).getD "").length > 5
    · rw [if_pos hlen] at h
      by_cases hseen : (seen.contains ((dictLookup m a).getD "")) = true
      · rw [if_pos hseen] at h
        rcases List.mem_cons.mp h with hik | h
        · rw [hik]
          exact List.mem_cons_self a rest
        · exact List.mem_cons_of_mem a (ih seen h)
      · rw [if_neg hseen] at h
        exact List.mem_cons_of_mem a (ih _ h)
    · rw [if_neg hlen] at h
      exact List.mem_cons_of_mem a (ih seen h)

/-- The first allow-list key holding a value is never dropped by the dedup
scan (its value was unseen when it was reached). -/
theorem dedupLoop_first_kept (m : List (String × String)) (ks : List String)
    (k : String) :
    ∀ seen, ks.Nodup →
    ks.find? (fun x => attrValue m x == attrValue m k) = some k →
    seen.contains (attrValue m k) = false →
    k ∉ dedupLoop m ks seen := by
  induction ks with
  | nil => intro seen _ hfind _; simp at hfind
  | cons a rest ih =>
    intro seen hnd hfind hseen
    rw [List.find?_cons] at hfind
    rw [dedupLoop]
    by_cases hhead : (attrValue m a == attrValue m k) = true
    · simp only [hhead] at hfind
      have hak : a = k := by simpa using hfind
      rw [hak]
      have hnotin : k ∉ rest := by
        rw [← hak]
        exact (List.nodup_cons.mp hnd).1
      by_cases hlen : ((dictLookup m k).getD "").length > 5
      · rw [if_pos hlen]
        have hseen' : (seen.contains ((dictLookup m k).getD "")) = false := by
          simpa [attrValue] using hseen
        rw [if_neg (by rw [hseen']; simp)]
        intro hmem
        exact hnotin (dedupLoop_subset m rest _ k hmem)
      · rw [if_neg hlen]
        intro hmem
        exact hnotin (dedupLoop_subset m rest seen k hmem)
    · have hheadf : (attrValue m a == attrValue m k) = false := by
        simpa using hhead
      simp only [hheadf] at hfind
      have hak : a ≠ k := by
        intro hik
        rw [hik] at hheadf
        simp [attrValue] at hheadf
      by_cases hlen : ((dictLookup m a).getD "").length > 5
      · rw [if_pos hlen]
        by_cases hsa : (seen.contains ((dictLookup m a).getD "")) = true
        · rw [if_pos hsa]
          intro hmem
          rcases List.mem_cons.mp hmem with hik | hmem
          · exact hak hik.symm
          · exact ih seen (List.nodup_cons.mp hnd).2 hfind hseen hmem
        · rw [if_neg hsa]
          have hseen' : ((((dictLookup m a).getD "") :: seen).contains
              (attrValue m k)) = false := by
            simp only [List.contains_cons, Bool.or_eq_false_iff]
            constructor
            · simpa [attrValue, BEq.comm] using hheadf
            · exact hseen
          exact ih _ (List.nodup_cons.mp hnd).2 hfind hseen'
      · rw [if_neg hlen]
        exact ih seen (List.nodup_cons.mp hnd).2 hfind hseen

/-- Every later allow-list key holding an already-seen long value is dropped
by the dedup scan. -/
theorem dedupLoop_later_dropped (m : List (String × String)) (ks : List String)
    (k : String) :
    ∀ seen, k ∈ ks → (attrValue m k).length > 5 →
    (ks.find? (fun x => attrValue m x == attrValue m k) ≠ some k ∨
      seen.contains (attrValue m k) = true) →
    k ∈ dedupLoop m ks seen := by
  induction ks with
  | nil => intro seen hk _ _; simp at hk
  | cons a rest ih =>
    intro seen hk hlen hdup
    rw [dedupLoop]
    rcases List.mem_cons.mp hk with hik | hk
    · -- k is the head
      subst hik
      have hhead : (attrValue m k == attrValue m k) = true := by simp
      rcases hdup with hfind | hseen
      · rw [List.find?_cons] at hfind
        simp only [hhead] at hfind
        exact absurd rfl hfind
      · rw [if_pos (by simpa [attrValue] using hlen)]
        rw [if_pos (by simpa [attrValue] using hseen)]
        exact List.mem_cons_self k _
    · -- k is in the tail
      by_cases hhead : (attrValue m a == attrValue m k) = true
      · -- the head holds the same value
        have hav : attrValue m a = attrValue m k := by simpa using hhead
        have hlena : ((dictLookup m a).getD "").length > 5 := by
          have h5 : (attrValue m a).length > 5 := by
            rw [hav]
            exact hlen
          simpa [attrValue] using h5
        rw [if_pos hlena]
        by_cases hsa : (seen.contains ((dictLookup m a).getD "")) = true
        · rw [if_pos hsa]
          refine List.mem_cons_of_mem a (ih seen hk hlen (Or.inr ?_))
          have hsv : seen.contains (attrValue m a) = true := by
            simpa [attrValue] using hsa
          rw [hav] at hsv
          exact hsv
        · rw [if_neg hsa]
          refine ih _ hk hlen (Or.inr ?_)
          have h9 : attrValue m k = (dictLookup m a).getD "" := by
            rw [← hav]
            simp [attrValue]
          simp [List.contains_cons, h9]
      · -- the head holds a different value
        have hheadf : (attrValue m a == attrValue m k) = false := by
          simpa using hhead
        rcases hdup with hfind | hseen
        · rw [List.find?_cons] at hfind
          simp only [hheadf] at hfind
          by_cases hlena : ((dictLookup m a).getD "").length > 5
          · rw [if_pos hlena]
            by_cases hsa : (seen.contains ((dictLookup m a).getD "")) = true
            · rw [if_pos hsa]
              exact List.mem_cons_of_mem a (ih seen hk hlen (Or.inl hfind))
            · rw [if_neg hsa]
              exact ih _ hk hlen (Or.inl hfind)
          · rw [if_neg hlena]
            exact ih seen hk hlen (Or.inl hfind)
        · by_cases hlena : ((dictLookup m a).getD "").length > 5
          · rw [if_pos hlena]
            by_cases hsa : (seen.contains ((dictLookup m a).getD "")) = true
            · rw [if_pos hsa]
              exact List.mem_cons_of_mem a (ih seen hk hlen (Or.inr hseen))
            · rw [if_neg hsa]
              refine ih _ hk hlen (Or.inr ?_)
              simp only [List.contains_cons, hseen, Bool.or_true]
          · rw [if_neg hlena]
            exact ih seen hk hlen (Or.inr hseen)

theorem dictLookup_mem {κ α : Type} [BEq κ] [LawfulBEq κ]
    (m : List (κ × α)) (k : κ) (v : α) (h : dictLookup m k = some v) :
    (k, v) ∈ m := by
  rw [dictLookup] at h
  rcases hf : m.find? (fun p => p.1 == k) with _ | p
  · rw [hf] at h
    cases h
  · rw [hf] at h
    simp only [Option.map_some', Option.some.injEq] at h
    have hmem := List.mem_of_find?_eq_some hf
    have hpred := List.find?_some hf
    have hp1 : p.1 = k := by simpa using hpred
    have : p = (k, v) := by
      rcases p with ⟨p1, p2⟩
      simp only at hp1 h
      rw [hp1, h]
    rw [← this]
    exact hmem

theorem dictLookup_contains {κ α : Type} [BEq κ] [LawfulBEq κ]
    (m : List (κ × α)) (k : κ) (v : α) (h : dictLookup m k = some v) :
    dictContains m k = true := by
  rw [dictContains, List.any_eq_true]
  exact ⟨(k, v), dictLookup_mem m k v h, by simp⟩

theorem dictKeys_filter_mem {κ α : Type} (m : List (κ × α)) (P : κ × α → Bool)
    (k : κ) :
    k ∈ dictKeys (m.filter P) ↔ ∃ kv ∈ m, P kv = true ∧ kv.1 = k := by
  rw [dictKeys]
  simp only [List.mem_map, List.mem_filter]
  constructor
  · rintro ⟨kv, ⟨hm, hP⟩, rfl⟩
    exact ⟨kv, hm, hP, rfl⟩
  · rintro ⟨kv, hm, hP, rfl⟩
    exact ⟨kv, ⟨hm, hP⟩, rfl⟩

/-- C6: in the attribute-string construction, among the allow-listed keys
whose (stripped) values are identical and longer than 5 characters, exactly
the first key in allow-list order survives the duplicate-value removal;
every later key holding that value is dropped. -/
theorem duplicate_long_values_keep_first_key (node : CombinedNode)
    (include_attributes : List String) (k v : String)
    (hinc : include_attributes.Nodup)
    (hkv : dictLookup (attributesToInclude node include_attributes) k = some v)
    (hlen : v.length > 5)
    (hk : k ∈ include_attributes) :
    k ∈ dictKeys (removeDuplicateValues
        (attributesToInclude node include_attributes) include_attributes) ↔
      (include_attributes.filter
          (fun x => dictContains (attributesToInclude node include_attributes) x)).find?
          (fun x => attrValue (attributesToInclude node include_attributes) x == v) =
        some k := by
  set m := attributesToInclude node include_attributes with hm
  set okeys := include_attributes.filter (fun x => dictContains m x) with hok
  have hkok : k ∈ okeys := by
    rw [hok, List.mem_filter]
    exact ⟨hk, dictLookup_contains m k v hkv⟩
  have hoknd : okeys.Nodup := List.Nodup.filter _ hinc
  have hav : attrValue m k = v := by
    rw [attrValue, hkv]
    rfl
  have hkvm : (k, v) ∈ m := dictLookup_mem m k v hkv
  rw [removeDuplicateValues]
  by_cases hlong : (okeys.length > 1)
  · rw [if_pos (by simpa [hok] using hlong)]
    constructor
    · intro hmem
      obtain ⟨kv, _, hP, hfst⟩ := (dictKeys_filter_mem _ _ _).mp hmem
      by_contra hfind
      have hdrop : k ∈ dedupLoop m okeys [] := by
        refine dedupLoop_later_dropped m okeys k [] hkok ?_ (Or.inl ?_) <;>
          rw [hav]
        · exact hlen
        · exact hfind
      rw [hfst] at hP
      simp only [Bool.not_eq_true', List.contains, List.elem_eq_mem,
        decide_eq_false_iff_not] at hP
      exact hP hdrop
    · intro hfind
      have hkeep : k ∉ dedupLoop m okeys [] := by
        refine dedupLoop_first_kept m okeys k [] hoknd ?_ (by simp)
        rw [hav]
        exact hfind
      refine (dictKeys_filter_mem _ _ _).mpr ⟨(k, v), hkvm, ?_, rfl⟩
      simp only [Bool.not_eq_true', List.contains, List.elem_eq_mem,
        decide_eq_false_iff_not]
      exact hkeep
  · rw [if_neg (by simpa [hok] using hlong)]
    have hsingle : okeys = [k] := by
      rcases hoe : okeys with _ | ⟨a, rest⟩
      · rw [hoe] at hkok
        cases hkok
      · rw [hoe] at hkok hlong
        rcases rest with _ | ⟨b, rest'⟩
        · rcases List.mem_cons.mp hkok with hik | hik
          · rw [hik]
          · cases hik
        · exfalso
          apply hlong
          simp
    constructor
    · intro _
      rw [hsingle, List.find?_cons]
      have : (attrValue m k == v) = true := by simp [hav]
      simp only [this]
    · intro _
      rw [dictKeys]
      exact List.mem_map.mpr ⟨(k, v), hkvm, rfl⟩


/-! ### Redundant aria-label / placeholder / title removal (C7) -/

theorem dictErase_not_mem {κ α : Type} [BEq κ] [LawfulBEq κ]
    (m : List (κ × α)) (k : κ) : k ∉ dictKeys (dictErase m k) := by
  rw [dictErase, dictKeys]
  intro h
  obtain ⟨kv, hmem, hfst⟩ := List.mem_map.mp h
  have := (List.mem_filter.mp hmem).2
  rw [hfst] at this
  simp at this

theorem dictErase_keys_subset {κ α : Type} [BEq κ]
    (m : List (κ × α)) (k x : κ) (h : x ∉ dictKeys m) :
    x ∉ dictKeys (dictErase m k) := by
  rw [dictErase, dictKeys] at *
  intro hx
  obtain ⟨kv, hmem, hfst⟩ := List.mem_map.mp hx
  exact h (List.mem_map.mpr ⟨kv, (List.mem_filter.mp hmem).1, hfst⟩)

theorem dictLookup_erase_ne {κ α : Type} [BEq κ] [LawfulBEq κ]
    (m : List (κ × α)) (k k' : κ) (hne : k ≠ k') :
    dictLookup (dictErase m k') k = dictLookup m k := by
  induction m with
  | nil => simp [dictErase, dictLookup]
  | cons p m ih =>
    by_cases hp : (p.1 == k') = true
    · have hpk : p.1 = k' := by simpa using hp
      have hpkne : (p.1 == k) = false := by
        simp only [beq_eq_false_iff_ne, ne_eq, hpk]
        exact fun h => hne h.symm
      rw [dictErase] at ih ⊢
      rw [List.filter_cons_of_neg (by simp [hp])]
      rw [ih]
      rw [dictLookup, dictLookup, List.find?_cons]
      simp only [hpkne]
    · rw [dictErase] at ih ⊢
      rw [List.filter_cons_of_pos (by simpa using hp)]
      rw [dictLookup, dictLookup, List.find?_cons, List.find?_cons]
      by_cases hq : (p.1 == k) = true
      · simp only [hq]
      · have hqf : (p.1 == k) = false := by simpa using hq
        simp only [hqf]
        rw [dictLookup, dictLookup] at ih
        exact ih

theorem textMatchStep_absent {text : String} {name : Option String}
    (m : List (String × String)) (attr x : String)
    (h : x ∉ dictKeys m) : x ∉ dictKeys (textMatchStep text name m attr) := by
  rw [textMatchStep.eq_def]
  by_cases hc : (pyLower (pyStrip ((dictLookup m attr).getD "")) ≠ "" &&
     (pyLower (pyStrip ((dictLookup m attr).getD "")) == pyLower (pyStrip text) ||
      (match name with
       | some nm => nm ≠ "" &&
          pyLower (pyStrip ((dictLookup m attr).getD "")) == pyLower (pyStrip nm)
       | none => false))) = true
  · rw [if_pos hc]
    exact dictErase_keys_subset m attr x h
  · rw [if_neg hc]
    exact h

theorem textMatchStep_lookup_ne {text : String} {name : Option String}
    (m : List (String × String)) (attr k : String) (hne : k ≠ attr) :
    dictLookup (textMatchStep text name m attr) k = dictLookup m k := by
  rw [textMatchStep.eq_def]
  by_cases hc : (pyLower (pyStrip ((dictLookup m attr).getD "")) ≠ "" &&
     (pyLower (pyStrip ((dictLookup m attr).getD "")) == pyLower (pyStrip text) ||
      (match name with
       | some nm => nm ≠ "" &&
          pyLower (pyStrip ((dictLookup m attr).getD "")) == pyLower (pyStrip nm)
       | none => false))) = true
  · rw [if_pos hc]
    exact dictLookup_erase_ne m k attr hne
  · rw [if_neg hc]

theorem textMatchStep_erases (text : String) (name : Option String)
    (m : List (String × String)) (attr : String)
    (hne : pyLower (pyStrip ((dictLookup m attr).getD "")) ≠ "")
    (hmatch : pyLower (pyStrip ((dictLookup m attr).getD "")) =
        pyLower (pyStrip text) ∨
      ∃ nm, name = some nm ∧ nm ≠ "" ∧
        pyLower (pyStrip ((dictLookup m attr).getD "")) = pyLower (pyStrip nm)) :
    attr ∉ dictKeys (textMatchStep text name m attr) := by
  rw [textMatchStep.eq_def]
  rw [if_pos ?_]
  · exact dictErase_not_mem m attr
  · simp only [Bool.and_eq_true, Bool.or_eq_true]
    refine ⟨by simpa using hne, ?_⟩
    rcases hmatch with h | ⟨nm, hnm, hnme, h⟩
    · exact Or.inl (by simpa using h)
    · right
      rw [hnm]
      simp only [Bool.and_eq_true]
      exact ⟨by simpa using hnme, by simpa using h⟩

/-- C7, amended: an allow-listed `aria-label`, `placeholder` or `title`
attribute whose surviving value — stripped and lowercased — is non-empty and
equals the element's stripped, lowercased derived text or its (truthy)
accessibility name is dropped from the final attribute map. -/
theorem redundant_text_attribute_dropped (m : List (String × String))
    (text : String) (name : Option String) (attr : String)
    (hattr : attr ∈ (["aria-label", "placeholder", "title"] : List String))
    (hne : pyLower (pyStrip ((dictLookup m attr).getD "")) ≠ "")
    (hmatch : pyLower (pyStrip ((dictLookup m attr).getD "")) =
        pyLower (pyStrip text) ∨
      ∃ nm, name = some nm ∧ nm ≠ "" ∧
        pyLower (pyStrip ((dictLookup m attr).getD "")) = pyLower (pyStrip nm)) :
    attr ∉ dictKeys (removeTextMatchingAttrs m text name) := by
  rw [removeTextMatchingAttrs]
  simp only [List.foldl_cons, List.foldl_nil]
  fin_cases hattr
  · -- aria-label is processed first
    apply textMatchStep_absent
    apply textMatchStep_absent
    exact textMatchStep_erases text name m "aria-label" hne hmatch
  · -- placeholder is processed second; the first step cannot change it
    have h1 : dictLookup (textMatchStep text name m "aria-label") "placeholder" =
        dictLookup m "placeholder" :=
      textMatchStep_lookup_ne m "aria-label" "placeholder" (by decide)
    apply textMatchStep_absent
    apply textMatchStep_erases
    · rw [h1]
      exact hne
    · rw [h1]
      exact hmatch
  · -- title is processed last; the first two steps cannot change it
    have h1 : dictLookup (textMatchStep text name m "aria-label") "title" =
        dictLookup m "title" :=
      textMatchStep_lookup_ne m "aria-label" "title" (by decide)
    have h2 : dictLookup (textMatchStep text name
          (textMatchStep text name m "aria-label") "placeholder") "title" =
        dictLookup (textMatchStep text name m "aria-label") "title" :=
      textMatchStep_lookup_ne _ "placeholder" "title" (by decide)
    apply textMatchStep_erases
    · rw [h2, h1]
      exact hne
    · rw [h2, h1]
      exact hmatch


/-! ### Concrete fusion scenario: `div > (span#a "Hello", span#b "World")`
with an attached, focusable AX node only on `span#a` (C2), and concrete
inputs for the remaining fusion claims. -/

/-- The AX node attached to `span#a` (backend id 11): role `button`,
`focusable = true`, not ignored. -/
def axA : AXNodeM :=
  { nodeId := "1", ignored := false,
    role := some ⟨"role", some (.jstr "button")⟩,
    name := some ⟨"computedString", some (.jstr "Hello")⟩,
    properties := some [⟨"focusable", some ⟨"booleanOrUndefined", some (.jbool true)⟩⟩],
    backendDOMNodeId := some 11 }

def scnAxTree : List AXNodeM := [axA]

def scnIdx : List (Nat × AXNodeM) := [(11, axA)]

def textHello : DomNode := .mk 3 12 3 "#text" "" "Hello" none none none

def textWorld : DomNode := .mk 5 14 3 "#text" "" "World" none none none

def spanA : DomNode :=
  .mk 2 11 1 "SPAN" "span" "" (some ["id", "a"]) (some [textHello]) none

def spanB : DomNode :=
  .mk 4 13 1 "SPAN" "span" "" (some ["id", "b"]) (some [textWorld]) none

def scnDiv : DomNode :=
  .mk 1 10 1 "DIV" "div" "" none (some [spanA, spanB]) none

theorem scnIdx_eval : axByBackendId scnAxTree = scnIdx := by
  simp [axByBackendId, scnAxTree, scnIdx, axBackendTruthy, axA, dictInsert]

theorem scnLookup11 : dictLookup scnIdx 11 = some axA := by
  simp [scnIdx, dictLookup]

theorem scnLookup_ne (b : Nat) (h : b ≠ 11) : dictLookup scnIdx b = none := by
  simp [scnIdx, dictLookup]
  omega

theorem scn_eval_textHello (st : FusionStats) :
    convertDomNode scnIdx textHello st =
      (none, { st with total_nodes := st.total_nodes + 1 }) := by
  rw [textHello, convertDomNode.eq_def]
  simp [collectAccessibleChildren, convertDomOptList, convertDomList,
    effectiveAccessibilityData, shouldIgnoreAccessibilityForNode,
    document_level_nodes, scnLookup_ne 12 (by decide),
    promoteAccessibleChildren, pyLower, DomNode.localName, DomNode.nodeName,
    DomNode.backendNodeId]

theorem scn_eval_textWorld (st : FusionStats) :
    convertDomNode scnIdx textWorld st =
      (none, { st with total_nodes := st.total_nodes + 1 }) := by
  rw [textWorld, convertDomNode.eq_def]
  simp [collectAccessibleChildren, convertDomOptList, convertDomList,
    effectiveAccessibilityData, shouldIgnoreAccessibilityForNode,
    document_level_nodes, scnLookup_ne 14 (by decide),
    promoteAccessibleChildren, pyLower, DomNode.localName, DomNode.nodeName,
    DomNode.backendNodeId]

theorem axA_interactive : isInteractiveNode (some axA) = true := by decide

theorem scn_eval_spanA (st : FusionStats) :
    convertDomNode scnIdx spanA st =
      (some (.element 2 11 1 "SPAN" "" "span" [("id", "a")] (some axA)
        (some st.counter) false false []),
       { st with total_nodes := st.total_nodes + 2,
                 accessible_nodes := st.accessible_nodes + 1,
                 interactive_nodes := st.interactive_nodes + 1,
                 counter := st.counter + 1 }) := by
  rw [spanA, convertDomNode.eq_def]
  simp only []
  rw [show effectiveAccessibilityData scnIdx
      (DomNode.mk 2 11 1 "SPAN" "span" "" (some ["id", "a"]) (some [textHello])
        none) = some axA by
    rw [effectiveAccessibilityData]
    rw [if_neg (by decide)]
    exact scnLookup11]
  simp only [axA_interactive, if_true]
  rw [collectAccessibleChildren]
  rw [convertDomOptList, convertDomOptList, convertDomList, convertDomList]
  rw [scn_eval_textHello]
  simp [CombinedNode.withChildren, tagNameOf, parseDomAttributes,
    parseAttrsLoop, dictInsert, DomNode.localName, DomNode.nodeName,
    DomNode.attributes]

theorem scn_eval_spanB (st : FusionStats) :
    convertDomNode scnIdx spanB st =
      (none, { st with total_nodes := st.total_nodes + 2 }) := by
  rw [spanB, convertDomNode.eq_def]
  simp [collectAccessibleChildren, convertDomOptList, convertDomList,
    effectiveAccessibilityData, shouldIgnoreAccessibilityForNode,
    document_level_nodes, scnLookup_ne 13 (by decide),
    promoteAccessibleChildren, pyLower, scn_eval_textWorld,
    DomNode.localName, DomNode.nodeName, DomNode.backendNodeId]

theorem scn_eval_div (st : FusionStats) :
    convertDomNode scnIdx scnDiv st =
      (some (.element 2 11 1 "SPAN" "" "span" [("id", "a")] (some axA)
        (some st.counter) false false []),
       { st with total_nodes := st.total_nodes + 5,
                 accessible_nodes := st.accessible_nodes + 1,
                 interactive_nodes := st.interactive_nodes + 1,
                 counter := st.counter + 1 }) := by
  rw [scnDiv, convertDomNode.eq_def]
  simp only []
  rw [show effectiveAccessibilityData scnIdx
      (DomNode.mk 1 10 1 "DIV" "div" "" none (some [spanA, spanB]) none) =
      none by
    rw [effectiveAccessibilityData]
    rw [if_neg (by decide)]
    exact scnLookup_ne 10 (by decide)]
  rw [collectAccessibleChildren]
  rw [convertDomOptList, convertDomOptList]
  rw [convertDomList, scn_eval_spanA, convertDomList, scn_eval_spanB,
    convertDomList]
  simp [promoteAccessibleChildren]


/-- C2, amended: on the scenario input, fusion returns `span#a` itself as
the root — the single accessible child is spliced upward in place of the
`div`, keeping its attached accessibility and `interactive_index = 0` —
while `span#b` (no accessibility, no accessible descendants) is pruned
entirely; no container `div` is synthesized. -/
theorem scn_create_eval :
    createCombinedTree scnAxTree scnDiv =
      { root := .element 2 11 1 "SPAN" "" "span" [("id", "a")] (some axA)
          (some 0) false false [],
        total_nodes := 5, accessible_nodes := 1, interactive_nodes := 1 } := by
  simp only [createCombinedTree, scnIdx_eval]
  rw [scn_eval_div]
  rfl

theorem scenario_root_is_spliced_spanA :
    (createCombinedTree scnAxTree scnDiv).root =
      .element 2 11 1 "SPAN" "" "span" [("id", "a")] (some axA) (some 0)
        false false [] ∧
    (createCombinedTree scnAxTree scnDiv).total_nodes = 5 ∧
    (createCombinedTree scnAxTree scnDiv).accessible_nodes = 1 ∧
    (createCombinedTree scnAxTree scnDiv).interactive_nodes = 1 := by
  rw [scn_create_eval]
  exact ⟨rfl, rfl, rfl, rfl⟩

/-- C2, counterexample: the fused root of the scenario is the Element
`span#a` with attached accessibility and interactive index 0 — not, as
claimed, a container `div` without accessibility whose children include
`span#a`. -/
theorem scenario_root_not_container_div :
    (createCombinedTree scnAxTree scnDiv).root.tag_name = "span" ∧
    (createCombinedTree scnAxTree scnDiv).root.accessibility = some axA ∧
    (createCombinedTree scnAxTree scnDiv).root.interactiveIndex = some 0 ∧
    (createCombinedTree scnAxTree scnDiv).root.children = [] ∧
    ¬((createCombinedTree scnAxTree scnDiv).root.tag_name = "div" ∧
      (createCombinedTree scnAxTree scnDiv).root.accessibility = none) := by
  have hroot : (createCombinedTree scnAxTree scnDiv).root =
      .element 2 11 1 "SPAN" "" "span" [("id", "a")] (some axA) (some 0)
        false false [] := by
    rw [scn_create_eval]
  rw [hroot]
  refine ⟨rfl, rfl, rfl, rfl, ?_⟩
  rintro ⟨h, _⟩
  simp [CombinedNode.tag_name] at h

/-- The AX node of the C1 counterexample: focusable, attached to backend
node id 5. -/
def axT : AXNodeM :=
  { nodeId := "2", ignored := false, role := none, name := none,
    properties := some [⟨"focusable", some ⟨"booleanOrUndefined", some (.jbool true)⟩⟩],
    backendDOMNodeId := some 5 }

/-- The DOM root of the C1 counterexample: a text node (`nodeType = 3`)
carrying the focusable AX node's backend id. -/
def cexTextDom : DomNode := .mk 1 5 3 "#text" "" "hi" none none none

/-- C1, counterexample: on a focusable text node the fusion advances the
interactive counter but builds a `CombinedTextNode`, which cannot carry an
`interactive_index` — so `interactive_nodes = 1` while the fused tree
contains no node with an interactive index at all, refuting the claimed
equality and the claimed index range `0..interactive_nodes-1`. -/
theorem interactive_counter_text_node_mismatch :
    (createCombinedTree [axT] cexTextDom).interactive_nodes = 1 ∧
    countInteractiveNodes (createCombinedTree [axT] cexTextDom).root = 0 ∧
    preorderInteractiveIndices (createCombinedTree [axT] cexTextDom).root = [] := by
  have hidx : axByBackendId [axT] = [(5, axT)] := by
    simp [axByBackendId, axBackendTruthy, axT, dictInsert]
  have heval : convertDomNode [(5, axT)] cexTextDom initialStats =
      (some (.text 1 5 3 "#text" "hi" "hi" (some axT) false []),
       { total_nodes := 1, accessible_nodes := 1, interactive_nodes := 1,
         counter := 1 }) := by
    rw [cexTextDom, convertDomNode.eq_def]
    simp only []
    rw [show effectiveAccessibilityData [(5, axT)]
        (DomNode.mk 1 5 3 "#text" "" "hi" none none none) = some axT by
      rw [effectiveAccessibilityData]
      rw [if_neg (by decide)]
      simp [dictLookup, DomNode.backendNodeId]]
    simp only [show isInteractiveNode (some axT) = true by decide, if_true]
    simp [collectAccessibleChildren, convertDomOptList,
      CombinedNode.withChildren, initialStats]
  refine ⟨?_, ?_, ?_⟩ <;>
    · simp only [createCombinedTree, hidx]
      rw [heval]
      try simp [countInteractiveNodes, countInteractiveNodesList,
        preorderInteractiveIndices, preorderInteractiveIndicesList]


/-! ### Concrete instantiations of the general theorems -/

/-- On the two-span scenario the interactive indices are exactly
`List.range interactive_nodes`, and the counter matches the census of fused
nodes carrying an index (the scenario has no interactive text nodes). -/
theorem interactiveIndices_preorder_range_witness :
    preorderInteractiveIndices (createCombinedTree scnAxTree scnDiv).root =
      List.range (createCombinedTree scnAxTree scnDiv).interactive_nodes ∧
    (createCombinedTree scnAxTree scnDiv).interactive_nodes =
      countInteractiveNodes (createCombinedTree scnAxTree scnDiv).root :=
  interactiveIndices_preorder_range scnAxTree scnDiv (by
    rw [scnIdx_eval]
    simp [scnDiv, spanA, spanB, textHello, textWorld, noInteractiveTextNodes,
      noInteractiveTextNodesOpt, noInteractiveTextNodesList,
      effectiveAccessibilityData, shouldIgnoreAccessibilityForNode,
      isInteractiveNode, scnIdx, dictLookup, axA, document_level_nodes,
      pyLower, DomNode.nodeName, DomNode.localName, DomNode.backendNodeId])

/-- A plain `div` with no attached AX data and no children: the conversion
threads the state exactly as the bare child collection does. -/
theorem convertDomNode_no_accessibility_witness :
    (convertDomNode [] (.mk 1 2 1 "DIV" "div" "" none none none)
        initialStats).2 =
      (collectAccessibleChildren [] none none
        { initialStats with total_nodes := initialStats.total_nodes + 1 }).2 :=
  (convertDomNode_no_accessibility_cases [] 1 2 1 "DIV" "div" "" none none
    none initialStats (by decide)).1

/-- A non-clickable, text-free `div` leaf to instantiate the optimize-pass
drop rule on. -/
def w4elem : CombinedNode :=
  .element 1 1 1 "DIV" "" "div" [] none none false false []

/-- The optimize pass drops a non-clickable element leaf with no text
content anywhere. -/
theorem optimize_drops_nonclickable_textless_witness :
    optimizeTree (SimplifiedNode.mk w4elem [] true) = none :=
  optimize_drops_nonclickable_textless (SimplifiedNode.mk w4elem [] true)
    (by decide)
    (by rw [SimplifiedNode.has_any_clickable_descendant]
        simp [SimplifiedNode.is_clickable, SimplifiedNode.original_node,
          w4elem, anyClickableDescendant])
    (by intro c hc
        simp [SimplifiedNode.children] at hc)

/-- An AX node attached to backend node id 2 — the id borne by the `head`
element below, so the suppression (not a missing match) is what fires. -/
def w5ax : AXNodeM :=
  { nodeId := "9", ignored := false, role := none, name := none,
    properties := none, backendDOMNodeId := some 2 }

/-- For a `head` element the backend-id lookup would succeed, yet the
effective accessibility data is forced to `none`. -/
theorem structural_suppression_witness :
    dictLookup [(2, w5ax)]
        (DomNode.mk 1 2 1 "HEAD" "head" "" none none none).backendNodeId =
      some w5ax ∧
    effectiveAccessibilityData [(2, w5ax)]
        (.mk 1 2 1 "HEAD" "head" "" none none none) = none :=
  ⟨by decide,
   (structural_node_accessibility_suppressed [(2, w5ax)] 1 2 1 "HEAD" "head"
     "" none none none initialStats (by decide)).1⟩

/-- An element with two allow-listed attributes holding the same long
value. -/
def w6elem : CombinedNode :=
  .element 1 1 1 "DIV" "" "div"
    [("data-x", "alpha123"), ("data-y", "alpha123")] none none false false []

/-- On the `data-x`/`data-y` scenario the later key survives deduplication
exactly when the ordered scan finds it first — which it does not, so only
`data-x="alpha123"` is rendered. -/
theorem duplicate_long_values_witness :
    ("data-y" ∈ dictKeys (removeDuplicateValues
        (attributesToInclude w6elem ["data-x", "data-y"])
        ["data-x", "data-y"]) ↔
      ((["data-x", "data-y"] : List String).filter
          (fun x => dictContains
            (attributesToInclude w6elem ["data-x", "data-y"]) x)).find?
          (fun x => attrValue (attributesToInclude w6elem ["data-x", "data-y"])
            x == "alpha123") =
        some "data-y") ∧
    buildAttributesString w6elem ["data-x", "data-y"] "" =
      "data-x=\"alpha123\"" := by
  refine ⟨duplicate_long_values_keep_first_key w6elem ["data-x", "data-y"]
    "data-y" "alpha123" (by decide) (by decide) (by decide) (by decide), ?_⟩
  decide

/-- The AX node of the `aria-label="Submit"` scenario: focusable button
named `Submit`. -/
def axSubmit : AXNodeM :=
  { nodeId := "7", ignored := false,
    role := some ⟨"role", some (.jstr "button")⟩,
    name := some ⟨"computedString", some (.jstr "Submit")⟩,
    properties := some
      [⟨"focusable", some ⟨"booleanOrUndefined", some (.jbool true)⟩⟩],
    backendDOMNodeId := some 21 }

/-- The text leaf `Submit` under the button. -/
def submitText : CombinedNode :=
  .text 3 22 3 "#text" "Submit" "Submit" none false []

/-- The fused button element with `aria-label="Submit"` and a `Submit` text
child. -/
def submitBtn : CombinedNode :=
  .element 2 21 1 "BUTTON" "" "button" [("aria-label", "Submit")]
    (some axSubmit) (some 0) false false [submitText]

/-- The derived text of the button is `Submit`. -/
theorem submitBtn_text :
    (CombinedNode.element 2 21 1 "BUTTON" "" "button"
        [("aria-label", "Submit")] (some axSubmit) (some 0) false false
        [submitText]).getAllTextTillNextAccessibleElement = "Submit" := by
  rw [CombinedNode.getAllTextTillNextAccessibleElement]
  rw [collectTextParts.eq_def]
  simp [submitText, collectTextParts, collectTextPartsList, combinedBeq,
    combinedBeqList, CombinedNode.isText, CombinedNode.hasAccessibilityData]
  decide

/-- On the `aria-label="Submit"` button whose derived text is `Submit`, the
attribute is dropped and the rendered line carries neither an `aria-label`
nor a `name=` suffix. -/
theorem redundant_text_attribute_witness :
    "aria-label" ∉ dictKeys (removeTextMatchingAttrs
        [("aria-label", "Submit")] "Submit" (some "Submit")) ∧
    serializeTree ["aria-label"] (SimplifiedNode.mk submitBtn [] true) 0 =
      "[0]<button>Submit />" := by
  refine ⟨redundant_text_attribute_dropped [("aria-label", "Submit")]
    "Submit" (some "Submit") "aria-label" (by decide) (by decide)
    (Or.inl (by decide)), ?_⟩
  rw [serializeTree.eq_def]
  simp [submitBtn, serializeChildren, elementLine, submitBtn_text]
  decide

/-- The concrete input refuting the universal reading of the text-matching
rule: an element whose `aria-label` is the empty string. -/
def c7CexElem : CombinedNode :=
  .element 4 31 1 "DIV" "" "div" [("aria-label", "")] none none false false []

/-- C7, counterexample: an empty `aria-label` equals the empty derived text
case-insensitively, yet it is not dropped — the code additionally requires
the stripped value to be truthy — so the attribute string still renders
`aria-label=""`. -/
theorem empty_aria_label_not_dropped :
    pyLower (pyStrip ((dictLookup [("aria-label", "")] "aria-label").getD "")) =
      pyLower (pyStrip "") ∧
    removeTextMatchingAttrs [("aria-label", "")] "" none =
      [("aria-label", "")] ∧
    buildAttributesString c7CexElem ["aria-label"] "" = "aria-label=\"\"" :=
  ⟨by decide, by decide, by decide⟩

/-- If the conversion of a bare `div` root yields nothing, the placeholder
becomes the returned root. -/
theorem createCombinedTree_placeholder_witness :
    (createCombinedTree [] (.mk 1 2 1 "DIV" "div" "" none none none)).root =
      placeholderRoot (.mk 1 2 1 "DIV" "div" "" none none none) :=
  (createCombinedTree_placeholder [] (.mk 1 2 1 "DIV" "div" "" none none none)
    (by
      rw [show axByBackendId [] = [] from rfl]
      rw [convertDomNode.eq_def]
      simp [effectiveAccessibilityData, shouldIgnoreAccessibilityForNode,
        document_level_nodes, dictLookup, pyLower, DomNode.nodeName,
        DomNode.localName, DomNode.backendNodeId, collectAccessibleChildren,
        convertDomOptList, promoteAccessibleChildren])).1

/-- An AX node whose `backendDOMNodeId` is the falsy 0. -/
def w9ax : AXNodeM :=
  { nodeId := "3", ignored := false, role := none, name := none,
    properties := none, backendDOMNodeId := some 0 }

/-- Appending the zero-id AX node to an empty list leaves the backend-id
index unchanged. -/
theorem zero_backend_id_witness :
    axByBackendId ([] ++ [w9ax]) = axByBackendId [] :=
  (zero_backend_id_treated_as_missing [] w9ax []
    (.mk 1 0 1 "DIV" "div" "" none none none) (Or.inl rfl)).1


end BrowserUse
